import Mathlib

/-!
Verification of the ResuMate hybrid resume-job match scoring pipeline.

This development shallowly embeds the scoring core of the repository
(`backend/app/scoring.py` and `backend/app/premium_scoring/*`) in Lean:

* exact rational arithmetic (`ℚ`) models Python float arithmetic for all
  pipeline algebra that the claims concern; the transcendental sigmoid maps
  of the premium pipeline are modelled over `ℝ`;
* Python strings are modelled as `String`/`List Char`; the small closed set
  of regular expressions used by the source is compiled by hand into
  structurally recursive scanners with the same matching semantics
  (documented at each definition); `\w` and case folding are modelled at
  ASCII precision, which covers every character class the source's patterns
  can distinguish;
* the skill dictionary (`skills.json`, a data file) and the external models
  (bi-encoder, cross-encoder, rank-bm25's raw score) are parameters of the
  embedded functions, mirroring their role as injected collaborators;
* Python `set` values are modelled as duplicate-free `List String` built by
  membership-checked insertion; Python's stable `sorted` is modelled by
  `List.insertionSort`, which computes the same list for the orders in use.
-/

namespace ResuMate

/-! ## Numeric helpers

Python's `round(x, 1)` on exact values rounds half to even.  `max(0, min(100, x))`
is the clamp used throughout the source. -/

/-- Round half to even to an integer, the rounding Python's `round` performs on
exact (tie) values. -/
def pyRoundInt {α : Type} [LinearOrderedField α] [FloorRing α] (x : α) : ℤ :=
  if x - ⌊x⌋ < 1/2 then ⌊x⌋
  else if 1/2 < x - ⌊x⌋ then ⌊x⌋ + 1
  else if ⌊x⌋ % 2 = 0 then ⌊x⌋ else ⌊x⌋ + 1

/-- Python `round(x, 1)`: round to one decimal digit. -/
def round1 {α : Type} [LinearOrderedField α] [FloorRing α] (x : α) : α :=
  (pyRoundInt (10 * x) : α) / 10

/-- Python `max(0, min(100, x))`. -/
def clamp0100 {α : Type} [LinearOrderedField α] (x : α) : α :=
  max 0 (min 100 x)

theorem clamp0100_nonneg {α : Type} [LinearOrderedField α] (x : α) :
    0 ≤ clamp0100 x := le_max_left 0 _

theorem clamp0100_le_100 {α : Type} [LinearOrderedField α] (x : α) :
    clamp0100 x ≤ 100 := by
  unfold clamp0100
  have h : min (100:α) x ≤ 100 := min_le_left _ _
  exact max_le (by norm_num) h

theorem clamp0100_le_of_le {α : Type} [LinearOrderedField α] {x c : α}
    (hx : x ≤ c) (hc : 0 ≤ c) : clamp0100 x ≤ c := by
  unfold clamp0100
  exact max_le hc (le_trans (min_le_right _ _) hx)

theorem pyRoundInt_le {α : Type} [LinearOrderedField α] [FloorRing α]
    {x : α} {n : ℤ} (h : x ≤ (n : α)) : pyRoundInt x ≤ n := by
  unfold pyRoundInt
  have hf : ⌊x⌋ ≤ n := by
    have := Int.floor_le x
    have hx : (⌊x⌋ : α) ≤ (n : α) := le_trans this h
    exact_mod_cast hx
  split
  · exact hf
  · rename_i h1
    push_neg at h1
    have hlt : (⌊x⌋ : α) < (n : α) := by
      have : (⌊x⌋ : α) ≤ x - 1/2 := by linarith
      have hx2 : x - 1/2 ≤ (n : α) - 1/2 := by linarith
      linarith
    have : ⌊x⌋ < n := by exact_mod_cast hlt
    split
    · omega
    · omega

theorem le_pyRoundInt {α : Type} [LinearOrderedField α] [FloorRing α]
    {x : α} {n : ℤ} (h : (n : α) ≤ x) : n ≤ pyRoundInt x := by
  unfold pyRoundInt
  have hfl : (⌊x⌋ : α) ≤ x := Int.floor_le x
  have hup : x < (⌊x⌋ : α) + 1 := Int.lt_floor_add_one x
  split
  · rename_i h1
    have hlt : (n : α) < (⌊x⌋ : α) + 1/2 := by linarith
    have : (n : α) < (⌊x⌋ : α) + 1 := by linarith
    have hn : n < ⌊x⌋ + 1 := by exact_mod_cast this
    omega
  · have : (n : α) < (⌊x⌋ : α) + 1 := by linarith
    have hn : n < ⌊x⌋ + 1 := by exact_mod_cast this
    split
    · omega
    · omega

theorem round1_nonneg {α : Type} [LinearOrderedField α] [FloorRing α]
    {x : α} (h : 0 ≤ x) : 0 ≤ round1 x := by
  unfold round1
  have h10 : (0 : α) ≤ 10 * x := by linarith
  have : (0 : ℤ) ≤ pyRoundInt (10 * x) := le_pyRoundInt (by exact_mod_cast h10)
  have hc : (0 : α) ≤ (pyRoundInt (10 * x) : α) := by exact_mod_cast this
  linarith

theorem round1_le_int {α : Type} [LinearOrderedField α] [FloorRing α]
    {x : α} {n : ℤ} (h : x ≤ (n : α)) : round1 x ≤ (n : α) := by
  unfold round1
  have h10 : 10 * x ≤ ((10 * n : ℤ) : α) := by push_cast; linarith
  have : pyRoundInt (10 * x) ≤ 10 * n := pyRoundInt_le h10
  have hc : (pyRoundInt (10 * x) : α) ≤ ((10 * n : ℤ) : α) := by exact_mod_cast this
  have hc2 : (pyRoundInt (10 * x) : α) ≤ 10 * (n : α) := by push_cast at hc; linarith
  linarith

theorem round1_le_100 {α : Type} [LinearOrderedField α] [FloorRing α]
    {x : α} (h : x ≤ 100) : round1 x ≤ 100 := by
  have := round1_le_int (x := x) (n := 100) (by exact_mod_cast h)
  exact_mod_cast this

theorem round1_mem_0_100 {α : Type} [LinearOrderedField α] [FloorRing α]
    {x : α} (h0 : 0 ≤ x) (h1 : x ≤ 100) : 0 ≤ round1 x ∧ round1 x ≤ 100 :=
  ⟨round1_nonneg h0, round1_le_100 h1⟩

/-! ## Character classes

ASCII models of Python's `\s`, `\w`, `[ \t]`, `[a-zA-Z0-9]`, `\d` and of
`str.lower`, plus the two literal character classes of `clean_text`. -/

/-- Python `\s` (ASCII range): space, tab, newline, carriage return, form feed,
vertical tab. -/
def isPySpace (c : Char) : Bool :=
  c = ' ' || c = '\t' || c = '\n' || c = '\x0d' || c = '\x0c' || c = '\x0b'

/-- Python `[ \t]`. -/
def isSpaceTab (c : Char) : Bool := c = ' ' || c = '\t'

/-- Python `[a-zA-Z0-9]`. -/
def isAlnum (c : Char) : Bool :=
  ('a' ≤ c && c ≤ 'z') || ('A' ≤ c && c ≤ 'Z') || ('0' ≤ c && c ≤ '9')

/-- Python `\w` (ASCII range): alphanumeric or underscore. -/
def isWordChar (c : Char) : Bool := isAlnum c || c = '_'

/-- Python `\d` (ASCII range). -/
def isDigit (c : Char) : Bool := '0' ≤ c && c ≤ '9'

/-- ASCII `str.lower`. -/
def lowerChar (c : Char) : Char :=
  if 'A' ≤ c && c ≤ 'Z' then Char.ofNat (c.toNat + 32) else c

/-- Lowercase a character list, as `text.lower()`. -/
def lowerStr (l : List Char) : List Char := l.map lowerChar

/-- The bullet class `[•·▪▫‣⁃]` of `clean_text`. -/
def isBullet (c : Char) : Bool :=
  c = '•' || c = '·' || c = '▪' || c = '▫' || c = '‣' || c = '⁃'

/-- The dash class `[–—]` of `clean_text`. -/
def isDash (c : Char) : Bool := c = '–' || c = '—'

/-! ## `ResumeScorer.clean_text`

`clean_text` truncates to 25,000 characters, then normalizes bullets and
dashes, de-hyphenates across line breaks, collapses whitespace per line
dropping blank lines, and removes repeated short lines.  Each `re.sub` is
compiled into a left-to-right scanner with the same semantics. -/

/-- `re.sub(r'[•·▪▫‣⁃]\s*', '• ', text)`: each bullet and the whitespace run
after it become a bullet and a single space. -/
def bulletNorm : List Char → List Char
  | [] => []
  | c :: rest =>
    if isBullet c then '•' :: ' ' :: bulletNorm (rest.dropWhile isPySpace)
    else c :: bulletNorm rest
termination_by l => l.length
decreasing_by
  · exact Nat.lt_succ_of_le (List.dropWhile_sublist _).length_le
  · simp

/-- `re.sub(r'[–—]\s*', '- ', text)`: each en/em dash and the whitespace run
after it become a hyphen and a single space. -/
def dashNorm : List Char → List Char
  | [] => []
  | c :: rest =>
    if isDash c then '-' :: ' ' :: dashNorm (rest.dropWhile isPySpace)
    else c :: dashNorm rest
termination_by l => l.length
decreasing_by
  · exact Nat.lt_succ_of_le (List.dropWhile_sublist _).length_le
  · simp

/-- `re.sub(r'(\w+)-\s*\n\s*(\w+)', r'\1\2', text)`.  A match is a word run,
a hyphen, a whitespace run containing a newline, and a second word run; the
two word runs are concatenated.  Scanning resumes after the match, so the
second word run is not reinspected as the head of a further match. -/
def dehyphenate : List Char → List Char
  | [] => []
  | c :: rest =>
    if isWordChar c then
      match h1 : rest.dropWhile isWordChar with
      | [] => c :: rest.takeWhile isWordChar
      | a :: rest2 =>
        if a = '-' && (rest2.takeWhile isPySpace).contains '\n' then
          match h2 : rest2.dropWhile isPySpace with
          | d :: tl =>
            if isWordChar d then
              (c :: rest.takeWhile isWordChar) ++ (d :: tl.takeWhile isWordChar) ++
                dehyphenate (tl.dropWhile isWordChar)
            else (c :: rest.takeWhile isWordChar) ++ a :: dehyphenate rest2
          | [] => (c :: rest.takeWhile isWordChar) ++ a :: dehyphenate rest2
        else (c :: rest.takeWhile isWordChar) ++ a :: dehyphenate rest2
    else c :: dehyphenate rest
termination_by l => l.length
decreasing_by
  · have ha : (List.dropWhile isWordChar rest).length ≤ rest.length :=
      (List.dropWhile_sublist _).length_le
    have hb : (List.dropWhile isPySpace rest2).length ≤ rest2.length :=
      (List.dropWhile_sublist _).length_le
    have hc : (List.dropWhile isWordChar tl).length ≤ tl.length :=
      (List.dropWhile_sublist _).length_le
    rw [h1] at ha
    rw [h2] at hb
    simp at ha hb
    simp
    omega
  · have ha : (List.dropWhile isWordChar rest).length ≤ rest.length :=
      (List.dropWhile_sublist _).length_le
    rw [h1] at ha
    simp at ha
    simp
    omega
  · have ha : (List.dropWhile isWordChar rest).length ≤ rest.length :=
      (List.dropWhile_sublist _).length_le
    rw [h1] at ha
    simp at ha
    simp
    omega
  · have ha : (List.dropWhile isWordChar rest).length ≤ rest.length :=
      (List.dropWhile_sublist _).length_le
    rw [h1] at ha
    simp at ha
    simp
    omega
  · simp

/-- Split on `'\n'`, as Python `text.split('\n')`: the empty text yields one
empty line, a newline starts a fresh line, any other character extends the
first line of the remainder's split. -/
def splitNl : List Char → List (List Char)
  | [] => [[]]
  | c :: rest =>
    if c = '\n' then [] :: splitNl rest
    else
      match splitNl rest with
      | f :: ls => (c :: f) :: ls
      | [] => [[c]]

/-- Python `str.strip()` (ASCII whitespace). -/
def pyStrip (l : List Char) : List Char :=
  ((l.dropWhile isPySpace).reverse.dropWhile isPySpace).reverse

/-- `re.sub(r'[ \t]+', ' ', line)`: collapse space/tab runs to one space. -/
def collapseSpaces : List Char → List Char
  | [] => []
  | c :: rest =>
    if isSpaceTab c then ' ' :: collapseSpaces (rest.dropWhile isSpaceTab)
    else c :: collapseSpaces rest
termination_by l => l.length
decreasing_by
  · exact Nat.lt_succ_of_le (List.dropWhile_sublist _).length_le
  · simp

/-- One line of the whitespace-normalization loop:
`re.sub(r'[ \t]+', ' ', line.strip())`. -/
def cleanLine (l : List Char) : List Char := collapseSpaces (pyStrip l)

/-- Join lines with `'\n'`, as `'\n'.join(lines)`. -/
def joinNl : List (List Char) → List Char
  | [] => []
  | [l] => l
  | l :: rest => l ++ '\n' :: joinNl rest

/-- Maximum text length `MAX_TEXT_LENGTH`. -/
def MAX_TEXT_LENGTH : ℕ := 25000

/-- `ResumeScorer.clean_text` on a character list.  Returns the cleaned
characters and the truncation flag.  The source truncates FIRST, before all
other normalization steps. -/
def cleanTextChars (l : List Char) : List Char × Bool :=
  if l = [] then ([], false)
  else
    let wasTruncated := decide (MAX_TEXT_LENGTH < l.length)
    let t0 := l.take MAX_TEXT_LENGTH
    let t1 := bulletNorm t0
    let t2 := dashNorm t1
    let t3 := dehyphenate t2
    let lines := splitNl t3
    let cleanedLines := (lines.map cleanLine).filter (· ≠ [])
    let finalLines :=
      if 10 < cleanedLines.length then
        cleanedLines.filter (fun line =>
          !(3 ≤ cleanedLines.count line && line.length < 80))
      else cleanedLines
    (joinNl finalLines, wasTruncated)

/-- `ResumeScorer.clean_text` on strings. -/
def cleanText (s : String) : String × Bool :=
  let r := cleanTextChars s.data
  (String.mk r.1, r.2)

/-! ## `ResumeScorer.split_sections`

A single pass over the lines of the resume assigns stripped non-blank,
non-header lines to the current section (initially `OTHER`); a header line
switches the current section.  A section's blob is grown by `+=`, so repeated
headers append.  Each heading regex `^(alt1|alt2|...)(\s*:|\s*$|$)` is
modelled alternative by alternative: an alternative is a sequence of literal
words separated by `\s+`, whose last word may take an optional trailing
`s`. -/

inductive SecName where
  | skills | experience | projects | education | certifications | other
deriving DecidableEq, Repr

/-- The per-section blobs, `sections` in the source (initially all empty). -/
def Sections : Type := SecName → List Char

/-- Match a literal word at the head of the text, returning the remainder. -/
def matchLit (w : List Char) (l : List Char) : Option (List Char) :=
  if w.isPrefixOf l then some (l.drop w.length) else none

/-- The tail `(\s*:|\s*$|$)` of every heading pattern: optional whitespace
then a colon, or optional whitespace then end of line. -/
def colonOrEnd (l : List Char) : Bool :=
  match l.dropWhile isPySpace with
  | [] => true
  | c :: _ => c = ':'

/-- After the first word: remaining words, each preceded by `\s+`; then the
optional `s` of the last word; then `(\s*:|\s*$|$)`. -/
def matchRest (words : List String) (optS : Bool) (l : List Char) : Bool :=
  match words with
  | [] =>
    (optS && (match matchLit ['s'] l with
              | some rem => colonOrEnd rem
              | none => false)) ||
    colonOrEnd l
  | w :: ws =>
    match l with
    | [] => false
    | c :: _ =>
      if isPySpace c then
        match matchLit w.data (l.dropWhile isPySpace) with
        | some rem => matchRest ws optS rem
        | none => false
      else false

/-- One alternative of a heading pattern, matched at the start of the
(lowercased, stripped) line. -/
def matchAlt (alt : List String × Bool) (l : List Char) : Bool :=
  match alt.1 with
  | [] => false
  | w :: ws =>
    match matchLit w.data l with
    | some rem => matchRest ws alt.2 rem
    | none => false

/-- The `section_patterns` table, in source (dict) order.  An entry
`(words, true)` stands for the words joined by `\s+` with an optional
trailing `s` on the last word. -/
def sectionPatterns : List (SecName × List (List String × Bool)) :=
  [ (.skills, [(["skill"], true), (["technical", "skill"], true),
               (["core", "skill"], true), (["competencie"], true)]),
    (.experience, [(["experience"], false), (["work", "experience"], false),
                   (["employment"], false), (["professional", "experience"], false),
                   (["career"], false)]),
    (.projects, [(["project"], true), (["personal", "project"], true),
                 (["side", "project"], true), (["portfolio"], false)]),
    (.education, [(["education"], false), (["academic"], false),
                  (["qualification"], true), (["degree"], true)]),
    (.certifications, [(["certification"], true), (["certificate"], true),
                       (["license"], true), (["credential"], true)]) ]

/-- The first section whose pattern matches the stripped line
(`re.match` with `IGNORECASE`), if any. -/
def headerSection (stripped : List Char) : Option SecName :=
  let low := lowerStr stripped
  (sectionPatterns.find? (fun p => p.2.any (fun alt => matchAlt alt low))).map (·.1)

/-- All-empty section map. -/
def initSections : Sections := fun _ => []

/-- `sections[sec] += content`. -/
def addTo (secs : Sections) (sec : SecName) (content : List Char) : Sections :=
  fun t => if t = sec then secs t ++ content else secs t

/-- Flush the accumulated buffer into the current section:
`sections[current] += '\n'.join(current_content) + '\n'` when non-empty. -/
def flushBuf (secs : Sections) (cur : SecName) (buf : List (List Char)) : Sections :=
  if buf = [] then secs else addTo secs cur (joinNl buf ++ ['\n'])

/-- The line loop of `split_sections`: blank lines flush the buffer, header
lines flush and switch the current section, other lines accumulate. -/
def runSplit : List (List Char) → SecName → List (List Char) → Sections → Sections
  | [], cur, buf, secs => flushBuf secs cur buf
  | line :: rest, cur, buf, secs =>
    let ls := pyStrip line
    if ls = [] then runSplit rest cur [] (flushBuf secs cur buf)
    else
      match headerSection ls with
      | some sec => runSplit rest sec [] (flushBuf secs cur buf)
      | none => runSplit rest cur (buf ++ [ls]) secs

/-- `ResumeScorer.split_sections` on a character list. -/
def splitSectionsChars (l : List Char) : Sections :=
  runSplit (splitNl l) .other [] initSections

/-- `ResumeScorer.split_sections`. -/
def splitSections (s : String) : Sections := splitSectionsChars s.data

/-! ## `ResumeScorer.extract_skills`

The skill dictionary (`skills.json`, a data file outside the scored source)
is a parameter: a list of `(canonical, aliases)` entries in insertion order.
Entries are visited sorted by descending canonical length then canonical
name; an entry whose canonical name or any alias occurs in the lowercased
text as a `\b`-delimited literal contributes its lowercased canonical name
once. -/

/-- Code-point comparison of characters, as Python string comparison uses. -/
def charLtB (a b : Char) : Bool := a.toNat < b.toNat

/-- Lexicographic strict order on character lists (Python string `<`). -/
def strLtB : List Char → List Char → Bool
  | [], [] => false
  | [], _ :: _ => true
  | _ :: _, [] => false
  | a :: as, b :: bs => charLtB a b || (a = b && strLtB as bs)

/-- Lexicographic order on character lists (Python string `<=`). -/
def strLeB (a b : List Char) : Bool := strLtB a b || a = b

/-- The sort key `lambda x: (-len(x[0]), x[0])` of `extract_skills`, as the
before-or-equal relation of a stable sort. -/
def skillKeyLe (a b : String × List String) : Bool :=
  b.1.length < a.1.length || (a.1.length = b.1.length && strLeB a.1.data b.1.data)

/-- `\b` between a character (or text edge, counted as non-word) and the
following character: exactly one side is a word character. -/
def isBoundary (prevIsWord : Bool) (c : Char) : Bool := prevIsWord != isWordChar c

/-- Whether `\b<p>\b` matches at the head of `t`, given whether the character
before `t` is a word character. -/
def wbMatchAt (p : List Char) (prevIsWord : Bool) (t : List Char) : Bool :=
  match p with
  | [] => false
  | c0 :: _ =>
    p.isPrefixOf t && (prevIsWord != isWordChar c0) &&
    (match p.getLast? with
     | some cl =>
       (match t.drop p.length with
        | [] => isWordChar cl
        | d :: _ => isWordChar cl != isWordChar d)
     | none => false)

/-- `re.search(r'\b' + re.escape(p) + r'\b', t)`: try every position. -/
def wbSearchAux (p : List Char) (prevIsWord : Bool) : List Char → Bool
  | [] => false
  | c :: rest => wbMatchAt p prevIsWord (c :: rest) || wbSearchAux p (isWordChar c) rest

/-- Word-boundary-delimited literal search, as `extract_skills` performs. -/
def wbSearch (p : List Char) (t : List Char) : Bool := wbSearchAux p false t

/-- Add to a Python-set-as-list: keep the list duplicate-free. -/
def insertUniq (l : List String) (s : String) : List String :=
  if l.contains s then l else l ++ [s]

/-- `ResumeScorer.extract_skills`: the set of canonical (lowercased) skills
whose canonical name or an alias occurs `\b`-delimited in the lowercased
text. -/
def extractSkills (dict : List (String × List String)) (text : String) : List String :=
  if dict = [] then []
  else
    let textLower := lowerStr text.data
    let sorted := dict.insertionSort (fun a b => skillKeyLe a b = true)
    sorted.foldl (fun acc entry =>
      let canonLow := lowerStr entry.1.data
      if wbSearch canonLow textLower ||
         entry.2.any (fun al => wbSearch (lowerStr al.data) textLower) then
        insertUniq acc (String.mk canonLow)
      else acc) []

/-! ## `ResumeScorer.extract_requirements`

Lines are classified by unanchored regex search: must-have patterns first,
else preferred patterns.  With no must-have line, the first 500 characters
of the job text are the must-have source.  (`qualifications?` matches
whenever `qualification` does, so optional trailing letters are dropped
from the search patterns.) -/

/-- Match a sequence of literal words separated by `\s+` at the head. -/
def seqMatchAt : List String → List Char → Bool
  | [], _ => true
  | [w], l => w.data.isPrefixOf l
  | w :: ws, l =>
    w.data.isPrefixOf l &&
    (match l.drop w.length with
     | c :: rest => isPySpace c && seqMatchAt ws ((c :: rest).dropWhile isPySpace)
     | [] => false)

/-- Unanchored search for a `\s+`-separated word sequence (`re.search`). -/
def seqSearch (words : List String) : List Char → Bool
  | [] => false
  | c :: rest => seqMatchAt words (c :: rest) || seqSearch words rest

/-- The `must_have_patterns` table. -/
def mustPatterns : List (List String) :=
  [["required"], ["must", "have"], ["minimum", "qualification"],
   ["we", "require"], ["you", "have"], ["essential"]]

/-- The `preferred_patterns` table. -/
def prefPatterns : List (List String) :=
  [["preferred"], ["bonus"], ["nice", "to", "have"], ["plus"]]

/-- Whether any pattern of the table occurs in the lowercased line. -/
def lineMatchesAny (pats : List (List String)) (line : List Char) : Bool :=
  pats.any (fun p => seqSearch p (lowerStr line))

/-- The lines classified as must-have. -/
def mustHaveLines (job : List Char) : List (List Char) :=
  (splitNl job).filter (lineMatchesAny mustPatterns)

/-- The lines classified as preferred (must-have checked first, `elif`). -/
def preferredLines (job : List Char) : List (List Char) :=
  (splitNl job).filter
    (fun l => !lineMatchesAny mustPatterns l && lineMatchesAny prefPatterns l)

/-- Join with single spaces, as `' '.join(lines)`. -/
def joinSpace : List (List Char) → List Char
  | [] => []
  | [l] => l
  | l :: rest => l ++ ' ' :: joinSpace rest

/-- `must_have_text`: the classified lines joined by spaces, or the first
500 characters of the job text when no line classified as must-have. -/
def mustHaveSourceChars (job : List Char) : List Char :=
  if mustHaveLines job = [] then job.take 500 else joinSpace (mustHaveLines job)

/-- `preferred_text`. -/
def preferredSourceChars (job : List Char) : List Char :=
  if preferredLines job = [] then [] else joinSpace (preferredLines job)

/-- `ResumeScorer.extract_requirements`:
`(must_have_skills, preferred_skills)`. -/
def extractRequirements (dict : List (String × List String)) (job : String) :
    List String × List String :=
  (extractSkills dict (String.mk (mustHaveSourceChars job.data)),
   extractSkills dict (String.mk (preferredSourceChars job.data)))

/-! ## `ResumeScorer.keyword_score`

Weighted recall over the must-have / preferred / other partitions of the
job-description skills, plus a clamped Jaccard adjustment over stop-word
filtered alphanumeric tokens of length at least 3. -/

/-- `re.findall(r'\b[a-zA-Z0-9]{m,}\b', text)`: the maximal alphanumeric
runs of length at least `m` whose neighbouring characters are not word
characters (an adjacent underscore defeats the `\b`).  `prevOk` records
whether the previous character admits a boundary. -/
def findTokensAux (m : ℕ) (prevOk : Bool) : List Char → List (List Char)
  | [] => []
  | c :: rest =>
    if isAlnum c && prevOk then
      let run := (c :: rest).takeWhile isAlnum
      let after := (c :: rest).dropWhile isAlnum
      let endOk := match after with
        | [] => true
        | d :: _ => !isWordChar d
      if endOk && m ≤ run.length then run :: findTokensAux m false after
      else findTokensAux m false after
    else findTokensAux m (!isWordChar c) rest
termination_by l => l.length
decreasing_by
  all_goals
    first
    | (have h : (List.dropWhile isAlnum rest).length ≤ rest.length :=
         (List.dropWhile_sublist _).length_le
       simp_all
       omega)
    | simp

/-- Token list of a text for the Jaccard adjustment and BM25. -/
def findTokens (m : ℕ) (l : List Char) : List (List Char) :=
  findTokensAux m true l

/-- Dedup preserving first occurrence, the set of a token list. -/
def dedupTokens (l : List (List Char)) : List (List Char) :=
  l.foldl (fun acc t => if acc.contains t then acc else acc ++ [t]) []

/-- The stop-word list of `keyword_score`. -/
def stopwords : List String :=
  ["the", "and", "or", "but", "in", "on", "at", "to", "for", "of", "with",
   "by", "from", "as", "is", "was", "are", "were", "be", "been", "being",
   "have", "has", "had", "do", "does", "did", "will", "would", "should",
   "could", "may", "might", "must", "can"]

/-- Stop-word-filtered token set of a text (`length >= 3` is re-checked as
in the source). -/
def jaccardTokens (text : List Char) : List (List Char) :=
  (dedupTokens (findTokens 3 (lowerStr text))).filter
    (fun t => !(stopwords.map String.data).contains t && 3 ≤ t.length)

/-- `score_component(found, total, weight)`. -/
def scoreComponent (found total : ℕ) (weight : ℚ) : ℚ :=
  if total = 0 then 0 else weight * found / total

/-- Size of the intersection of a duplicate-free list with another list
(Python `len(a & b)` with `a` the duplicate-free one). -/
def interLen (a b : List String) : ℕ := (a.filter (b.contains ·)).length

/-- `ResumeScorer.keyword_score`.  `mustHave` and `preferred` play the role
of the Python set arguments (duplicate-free lists). -/
def keywordScore (dict : List (String × List String)) (resumeText jobText : String)
    (mustHave preferred : List String) : ℚ :=
  let resumeSkills := extractSkills dict resumeText
  let allJd := extractSkills dict jobText
  let otherJd := allJd.filter (fun s => !mustHave.contains s && !preferred.contains s)
  let mustHaveScore := scoreComponent (interLen resumeSkills mustHave) mustHave.length 2
  let preferredScore := scoreComponent (interLen resumeSkills preferred) preferred.length 1
  let otherScore := scoreComponent (interLen resumeSkills otherJd) otherJd.length (1/2)
  let kRaw := mustHaveScore + preferredScore + otherScore
  let maxPossible : ℚ :=
    (if mustHave ≠ [] then 2 else 0) + (if preferred ≠ [] then 1 else 0) +
      (if otherJd ≠ [] then 1/2 else 0)
  let k0 : ℚ := if 0 < maxPossible then 100 * (kRaw / maxPossible) else 0
  let resumeTokens := jaccardTokens resumeText.data
  let jobTokens := jaccardTokens jobText.data
  let jaccard : ℚ :=
    if jobTokens ≠ [] then
      let inter := (resumeTokens.filter (jobTokens.contains ·)).length
      let union := resumeTokens.length + (jobTokens.filter (fun t => !resumeTokens.contains t)).length
      if union ≠ 0 then (inter : ℚ) / union else 0
    else 0
  let tfidfAdjust : ℚ := max (-10) (min 10 ((jaccard - 1/20) * 100))
  round1 (clamp0100 (k0 + tfidfAdjust))

/-! ## `ResumeScorer.evidence_score`

Counts canonical skills co-occurring with an action verb within six words
(`\bverb\b\s+(?:\w+\s+){0,6}\bskill\b` and the symmetric pattern), capped at
60 points, plus up to four of seven metric regex families, capped at 40. -/

/-- The fixed action verb list. -/
def actionVerbs : List String :=
  ["built", "developed", "implemented", "designed", "optimized",
   "deployed", "migrated", "improved", "created", "architected",
   "engineered", "delivered", "launched", "scaled", "enhanced"]

/-- The `(?:\w+\s+){0,k}\btarget\b` tail: at each step either the target
matches here (after whitespace, so no preceding word character), or one
more word run and whitespace run are consumed. -/
def ctxLoop (target : List Char) : ℕ → List Char → Bool
  | fuel, t =>
    wbMatchAt target false t ||
    match fuel with
    | 0 => false
    | fuel' + 1 =>
      match t with
      | c :: _ =>
        if isWordChar c then
          match h : t.dropWhile isWordChar with
          | d :: _ =>
            isPySpace d && ctxLoop target fuel' ((t.dropWhile isWordChar).dropWhile isPySpace)
          | [] => false
        else false
      | [] => false
termination_by fuel _ => fuel

/-- `\bfirst\b\s+(?:\w+\s+){0,6}\bsecond\b` matching at the head of `t`. -/
def ctxMatchAt (first second : List Char) (prevIsWord : Bool) (t : List Char) : Bool :=
  wbMatchAt first prevIsWord t &&
  (match t.drop first.length with
   | c :: rest =>
     isPySpace c && ctxLoop second 6 ((c :: rest).dropWhile isPySpace)
   | [] => false)

/-- Unanchored search for the context pattern. -/
def ctxSearchAux (first second : List Char) (prevIsWord : Bool) : List Char → Bool
  | [] => false
  | c :: rest =>
    ctxMatchAt first second prevIsWord (c :: rest) ||
    ctxSearchAux first second (isWordChar c) rest

/-- `re.search` of the context pattern over the whole text. -/
def ctxSearch (first second t : List Char) : Bool := ctxSearchAux first second false t

/-- Whether a canonical skill is found in an action-verb context
(either pattern direction, any verb). -/
def foundContext (canonicalLower : List Char) (textLower : List Char) : Bool :=
  actionVerbs.any (fun v =>
    ctxSearch v.data canonicalLower textLower ||
    ctxSearch canonicalLower v.data textLower)

/-- Head-is-digit test for the metric patterns. -/
def isDigitHead (l : List Char) : Bool :=
  match l with
  | c :: _ => isDigit c
  | [] => false

/-- Prefix test for an alternation of literals. -/
def anyPrefix (alts : List String) (l : List Char) : Bool :=
  alts.any (fun a => a.data.isPrefixOf l)

/-- Head equality test. -/
def headIs (c : Char) (l : List Char) : Bool :=
  match l with
  | d :: _ => d = c
  | [] => false

/-- Unanchored search for a position-wise test. -/
def searchPos (p : List Char → Bool) : List Char → Bool
  | [] => false
  | c :: rest => p (c :: rest) || searchPos p rest

/-- `\d+\s*%`. -/
def metricPercentAt (l : List Char) : Bool :=
  isDigitHead l && headIs '%' ((l.dropWhile isDigit).dropWhile isPySpace)

/-- `\$\d+`. -/
def metricDollarAt (l : List Char) : Bool :=
  match l with
  | '$' :: rest => isDigitHead rest
  | _ => false

/-- `\d+\s*(?:ms|milliseconds|seconds|minutes|hours)`. -/
def metricLatencyAt (l : List Char) : Bool :=
  isDigitHead l &&
    anyPrefix ["ms", "milliseconds", "seconds", "minutes", "hours"]
      ((l.dropWhile isDigit).dropWhile isPySpace)

/-- `\d+\s*(?:users|clients|customers|requests)`. -/
def metricUsersAt (l : List Char) : Bool :=
  isDigitHead l &&
    anyPrefix ["users", "clients", "customers", "requests"]
      ((l.dropWhile isDigit).dropWhile isPySpace)

/-- `\d+x\s*(?:faster|improvement|increase)`. -/
def metricMultiplierAt (l : List Char) : Bool :=
  isDigitHead l &&
    (match l.dropWhile isDigit with
     | 'x' :: rest => anyPrefix ["faster", "improvement", "increase"] (rest.dropWhile isPySpace)
     | _ => false)

/-- `(?:reduced|increased|improved|decreased)\s+by\s+\d+`. -/
def metricImpactAt (l : List Char) : Bool :=
  ["reduced", "increased", "improved", "decreased"].any (fun w =>
    w.data.isPrefixOf l &&
    (match l.drop w.length with
     | c :: rest =>
       isPySpace c &&
       (let r1 := (c :: rest).dropWhile isPySpace
        ("by".data).isPrefixOf r1 &&
        (match r1.drop 2 with
         | c2 :: rest2 => isPySpace c2 && isDigitHead ((c2 :: rest2).dropWhile isPySpace)
         | [] => false))
     | [] => false))

/-- `\d+\s*(?:million|billion|thousand)`. -/
def metricLargeAt (l : List Char) : Bool :=
  isDigitHead l &&
    anyPrefix ["million", "billion", "thousand"] ((l.dropWhile isDigit).dropWhile isPySpace)

/-- The `metrics_patterns` table as position-wise tests. -/
def metricsPatterns : List (List Char → Bool) :=
  [metricPercentAt, metricDollarAt, metricLatencyAt, metricUsersAt,
   metricMultiplierAt, metricImpactAt, metricLargeAt]

/-- `ResumeScorer.evidence_score`. -/
def evidenceScore (dict : List (String × List String)) (resumeText : String) : ℚ :=
  let textLower := lowerStr resumeText.data
  let contextHits := (dict.filter (fun e => foundContext (lowerStr e.1.data) textLower)).length
  let metricsHits := (metricsPatterns.filter (fun p => searchPos p textLower)).length
  let contextScore : ℚ := min 60 (contextHits * 10)
  let metricsScore : ℚ := min 40 (metricsHits * 10)
  round1 (clamp0100 (contextScore + metricsScore))

/-! ## `ResumeScorer.semantic_score`

The bi-encoder is opaque: the oracle `sim a b` stands for
`np.dot(model.encode(a), model.encode(b))` with normalized embeddings.  An
inference failure is the oracle returning `0`, exactly the `except` paths of
the source.  Section texts are truncated to 10,000 characters before
encoding; empty-section weights are redirected to the whole-resume
similarity. -/

/-- Python `text[:n]` on strings. -/
def pyTake (n : ℕ) (s : String) : String := String.mk (s.data.take n)

/-- `ResumeScorer.semantic_score`. -/
def semanticScore (sim : String → String → ℚ) (resumeText jobText : String)
    (sections : Sections) : ℚ :=
  let maxChars := 10000
  let resumeTruncated := pyTake maxChars resumeText
  let jobTruncated := pyTake maxChars jobText
  let wholeSim := sim resumeTruncated jobTruncated
  let expText := pyStrip (sections .experience)
  let expSim : ℚ :=
    if expText ≠ [] then sim (pyTake maxChars (String.mk expText)) jobTruncated else 0
  let projText := pyStrip (sections .projects)
  let projSim : ℚ :=
    if projText ≠ [] then sim (pyTake maxChars (String.mk projText)) jobTruncated else 0
  let weightedSum :=
    (2/5 : ℚ) * wholeSim +
    (if expText ≠ [] then (2/5 : ℚ) * expSim else (2/5 : ℚ) * wholeSim) +
    (if projText ≠ [] then (1/5 : ℚ) * projSim else (1/5 : ℚ) * wholeSim)
  let totalWeight : ℚ := 2/5 + 2/5 + 1/5
  let s0 : ℚ := if 0 < totalWeight then 100 * (weightedSum / totalWeight) else 0
  max 0 (min 100 (round1 s0))

/-! ## `ResumeScorer.score_match` (classic mode) -/

/-- Lexicographic code-point order on strings (Python string `<=`), as a
proposition. -/
def strLexLe (a b : String) : Prop := strLeB a.data b.data = true

instance : DecidableRel strLexLe := fun a b => by
  unfold strLexLe
  infer_instance

/-- Python `sorted(set)` on canonical skills: lexicographic by code point. -/
def sortLex (l : List String) : List String :=
  l.insertionSort strLexLe

/-- Python `sorted(s, key=lambda x: (-len(x), x.lower()))`: descending
length, then lowercased name (stable). -/
def sortLenKey (l : List String) : List String :=
  l.insertionSort (fun a b =>
    (b.length < a.length || (a.length = b.length && strLeB (lowerStr a.data) (lowerStr b.data))) = true)

/-- The result dict of `ResumeScorer.score_match`. -/
structure ClassicResult where
  finalScore : ℚ
  keywordScore : ℚ
  semanticScore : ℚ
  evidenceScore : ℚ
  capApplied : Bool
  mustHavePenalty : ℚ
  missingMustHaveCount : ℕ
  mustHaveMissing : List String
  preferredMissing : List String
  matchedSkills : List String
  missingSkills : List String
  topMatches : List String
  missingKeywords : List String
  wasTruncated : Bool

/-- `MUST_HAVE_CAP` selection: `70 if missing_count > 0 else 100`. -/
def fusionCap {α : Type} [LinearOrderedField α] (missingCount : ℕ) : α :=
  if 0 < missingCount then 70 else 100

/-- `MUST_HAVE_PENALTY_PER_SKILL * missing_count`. -/
def fusionPenalty {α : Type} [LinearOrderedField α] (missingCount : ℕ) : α :=
  12 * missingCount

/-- `max(0, min(100, min(raw, cap) - must_have_penalty))`, shared by the
classic and premium fusion stages. -/
def fusionConstrained {α : Type} [LinearOrderedField α] (raw : α) (missingCount : ℕ) : α :=
  clamp0100 (min raw (fusionCap missingCount) - fusionPenalty missingCount)

/-- `ResumeScorer.score_match`.  `dict` is the skill dictionary and `sim`
the embedding-similarity oracle. -/
def scoreMatch (dict : List (String × List String)) (sim : String → String → ℚ)
    (resumeText jobText : String) : ClassicResult :=
  let rc := cleanText resumeText
  let jc := cleanText jobText
  let resumeClean := rc.1
  let jobClean := jc.1
  let sections := splitSections resumeClean
  let reqs := extractRequirements dict jobClean
  let mustHave := reqs.1
  let preferred := reqs.2
  let K := keywordScore dict resumeClean jobClean mustHave preferred
  let S := semanticScore sim resumeClean jobClean sections
  let E := evidenceScore dict resumeClean
  let raw := K * (55/100) + S * (35/100) + E * (10/100)
  let resumeSkills := extractSkills dict resumeClean
  let missingMustHave := mustHave.filter (fun s => !resumeSkills.contains s)
  let missingCount := missingMustHave.length
  let final := fusionConstrained raw missingCount
  let allJd := extractSkills dict jobClean
  let matched := resumeSkills.filter (allJd.contains ·)
  let missing := allJd.filter (fun s => !resumeSkills.contains s)
  let preferredMissing := preferred.filter (fun s => !resumeSkills.contains s)
  let mustHaveMatched := resumeSkills.filter (mustHave.contains ·)
  let preferredMatched := resumeSkills.filter (preferred.contains ·)
  let otherMatched := matched.filter (fun s => !mustHave.contains s && !preferred.contains s)
  { finalScore := round1 final
    keywordScore := K
    semanticScore := S
    evidenceScore := E
    capApplied := decide (fusionCap (α := ℚ) missingCount < 100)
    mustHavePenalty := fusionPenalty missingCount
    missingMustHaveCount := missingCount
    mustHaveMissing := sortLex missingMustHave
    preferredMissing := sortLex preferredMissing
    matchedSkills := sortLex matched
    missingSkills := sortLex missing
    topMatches := (sortLenKey mustHaveMatched ++ sortLenKey preferredMatched ++
      sortLenKey otherMatched).take 10
    missingKeywords := (sortLenKey missingMustHave ++ sortLenKey preferredMissing ++
      sortLenKey (missing.filter (fun s => !mustHave.contains s && !preferred.contains s))).take 10
    wasTruncated := rc.2 || jc.2 }

/-! ## `premium_scoring.bm25`

`tokenize` is `re.findall(r'\b[a-zA-Z0-9]{2,}\b', text.lower())` (a list,
multiplicities preserved).  The raw BM25 score of the resume document for
the job-token query — `BM25Okapi([resume_tokens, job_tokens])
.get_scores(job_tokens)[0]`, computed by the external `rank_bm25` library —
is an oracle parameter.  The source normalizes with the literal base
`2.71828` (`2.71828 ** (-0.1 * (raw_score - 5))`), not `math.exp`. -/

/-- `premium_scoring.bm25.tokenize`. -/
def tokenize (s : String) : List (List Char) := findTokens 2 (lowerStr s.data)

/-- The normalization map of `calculate_bm25_score`:
`100 / (1 + 2.71828 ** (-0.1 * (raw_score - 5)))`. -/
noncomputable def bm25Normalize (raw : ℝ) : ℝ :=
  100 / (1 + (2.71828 : ℝ) ^ (-(1/10) * (raw - 5)))

/-- `premium_scoring.bm25.calculate_bm25_score`, with the library's raw
score as the `bm25raw` oracle. -/
noncomputable def calculateBm25Score (bm25raw : List (List Char) → List (List Char) → ℝ)
    (resumeText jobText : String) : ℝ :=
  let resumeTokens := tokenize resumeText
  let jobTokens := tokenize jobText
  if resumeTokens = [] ∨ jobTokens = [] then 0
  else clamp0100 (round1 (bm25Normalize (bm25raw resumeTokens jobTokens)))

/-! ## `premium_scoring.reranker`

The cross-encoder `model.predict(pairs)` is an oracle returning `none` when
inference raises (the `except` path) and the per-pair scores otherwise.
Python's stable descending sort by score is `List.insertionSort` with the
score-`≥` relation. -/

/-- `Reranker.rerank_snippets`. -/
def rerankSnippets (predict : List (String × String) → Option (List ℚ))
    (resumeSnippets : List String) (jobText : String) (topK : ℕ) :
    List String × List ℚ :=
  if resumeSnippets = [] ∨ jobText = "" then ([], [])
  else
    match predict (resumeSnippets.map (fun s => (s, jobText))) with
    | none =>
      (resumeSnippets.take topK, List.replicate (min resumeSnippets.length topK) 0)
    | some scores =>
      let scoredPairs := resumeSnippets.zip scores
      let sortedPairs := scoredPairs.insertionSort (fun a b => b.2 ≤ a.2)
      ((sortedPairs.take topK).map (·.1), (sortedPairs.take topK).map (·.2))

/-- The normalization map of `calculate_rerank_score`:
`100 / (1 + 2.71828 ** (-0.3 * avg_score))`. -/
noncomputable def rerankNormalize (avg : ℝ) : ℝ :=
  100 / (1 + (2.71828 : ℝ) ^ (-(3/10) * avg))

/-- `Reranker.calculate_rerank_score`. -/
noncomputable def calculateRerankScore (predict : List (String × String) → Option (List ℚ))
    (resumeSnippets : List String) (jobText : String) (topK : ℕ) : ℝ :=
  if resumeSnippets = [] ∨ jobText = "" then 0
  else
    let scores := (rerankSnippets predict resumeSnippets jobText topK).2
    if scores = [] then 0
    else
      let avgScore : ℚ := scores.sum / scores.length
      clamp0100 (round1 (rerankNormalize (avgScore : ℝ)))

/-! ## `premium_scoring.calibration` -/

/-- `sigmoid_calibrate(score, center=50, steepness=0.08)`: clamp the input,
apply `100 / (1 + math.exp(-steepness * (score - center)))`, round to one
decimal, clamp. -/
noncomputable def sigmoidCalibrate (score : ℝ) : ℝ :=
  let s := clamp0100 score
  clamp0100 (round1 (100 / (1 + Real.exp (-(8/100) * (s - 50)))))

/-! ## `PremiumScorer` -/

/-- 200-character chunks of a text (`range(0, len(text), 200)`). -/
def chunks200 (l : List Char) : List (List Char) :=
  if l = [] then [] else l.take 200 :: chunks200 (l.drop 200)
termination_by l.length
decreasing_by
  rename_i h
  have : l ≠ [] := h
  have hl : 0 < l.length := List.length_pos.mpr this
  simp
  omega

/-- `PremiumScorer._extract_snippets`. -/
def extractSnippets (resumeText : String) (sections : Sections) : List String :=
  let expText := pyStrip (sections .experience)
  let expLines :=
    if expText ≠ [] then
      (((splitNl expText).map pyStrip).filter (· ≠ [])).filter (fun l => 20 < l.length)
    else []
  let projText := pyStrip (sections .projects)
  let projLines :=
    if projText ≠ [] then
      (((splitNl projText).map pyStrip).filter (· ≠ [])).filter (fun l => 20 < l.length)
    else []
  let snippets := expLines ++ projLines
  let snippets2 :=
    if snippets = [] then
      ((chunks200 resumeText.data).map pyStrip).filter (fun c => 20 < c.length)
    else snippets
  (snippets2.take 20).map String.mk

/-- `PremiumScorer._semantic_retrieval_score` (the bi-encoder similarity is
the oracle `sim`; inference failure is the oracle returning `0`, the
`except` paths). -/
noncomputable def semanticRetrievalScore (sim : String → String → ℝ)
    (resumeText jobText : String) (sections : Sections) : ℝ :=
  let maxChars := 10000
  let resumeTruncated := pyTake maxChars resumeText
  let jobTruncated := pyTake maxChars jobText
  let wholeSim := sim resumeTruncated jobTruncated
  let expText := pyStrip (sections .experience)
  let expSim : ℝ :=
    if expText ≠ [] then sim (pyTake maxChars (String.mk expText)) jobTruncated else 0
  let projText := pyStrip (sections .projects)
  let projSim : ℝ :=
    if projText ≠ [] then sim (pyTake maxChars (String.mk projText)) jobTruncated else 0
  let weightedSum :=
    (2/5 : ℝ) * wholeSim +
    (if expText ≠ [] then (2/5 : ℝ) * expSim else (2/5 : ℝ) * wholeSim) +
    (if projText ≠ [] then (1/5 : ℝ) * projSim else (1/5 : ℝ) * wholeSim)
  let totalWeight : ℝ := 2/5 + 2/5 + 1/5
  let s0 : ℝ := if 0 < totalWeight then 100 * (weightedSum / totalWeight) else 0
  max 0 (min 100 (round1 s0))

/-- The result dict of `PremiumScorer.score_match`. -/
structure PremiumResult where
  finalScore : ℝ
  bm25Score : ℝ
  semanticRetrievalScore : ℝ
  rerankScore : ℝ
  evidenceScore : ℝ
  calibratedScore : ℝ
  rawScore : ℝ
  constrainedScore : ℝ
  capApplied : Bool
  mustHavePenalty : ℚ
  missingMustHaveCount : ℕ
  mustHaveMissing : List String
  preferredMissing : List String
  matchedSkills : List String
  missingSkills : List String
  topMatches : List String
  missingKeywords : List String
  wasTruncated : Bool

/-- `PremiumScorer.score_match`. -/
noncomputable def premiumScoreMatch (dict : List (String × List String))
    (simB : String → String → ℝ)
    (predict : List (String × String) → Option (List ℚ))
    (bm25raw : List (List Char) → List (List Char) → ℝ)
    (resumeText jobText : String) : PremiumResult :=
  let rc := cleanText resumeText
  let jc := cleanText jobText
  let resumeClean := rc.1
  let jobClean := jc.1
  let sections := splitSections resumeClean
  let reqs := extractRequirements dict jobClean
  let mustHave := reqs.1
  let preferred := reqs.2
  let bm25 := calculateBm25Score bm25raw resumeClean jobClean
  let sem := semanticRetrievalScore simB resumeClean jobClean sections
  let snippets := extractSnippets resumeClean sections
  let rerank := calculateRerankScore predict snippets jobClean 5
  let E := evidenceScore dict resumeClean
  let raw := bm25 * (35/100) + sem * (35/100) + rerank * (20/100) + (E : ℝ) * (10/100)
  let resumeSkills := extractSkills dict resumeClean
  let missingMustHave := mustHave.filter (fun s => !resumeSkills.contains s)
  let missingCount := missingMustHave.length
  let constrained := fusionConstrained raw missingCount
  let calibrated := sigmoidCalibrate constrained
  let allJd := extractSkills dict jobClean
  let matched := resumeSkills.filter (allJd.contains ·)
  let missing := allJd.filter (fun s => !resumeSkills.contains s)
  let preferredMissing := preferred.filter (fun s => !resumeSkills.contains s)
  let mustHaveMatched := resumeSkills.filter (mustHave.contains ·)
  let preferredMatched := resumeSkills.filter (preferred.contains ·)
  let otherMatched := matched.filter (fun s => !mustHave.contains s && !preferred.contains s)
  { finalScore := calibrated
    bm25Score := bm25
    semanticRetrievalScore := sem
    rerankScore := rerank
    evidenceScore := (E : ℝ)
    calibratedScore := calibrated
    rawScore := raw
    constrainedScore := constrained
    capApplied := decide (fusionCap (α := ℝ) missingCount < 100)
    mustHavePenalty := fusionPenalty missingCount
    missingMustHaveCount := missingCount
    mustHaveMissing := sortLex missingMustHave
    preferredMissing := sortLex preferredMissing
    matchedSkills := sortLex matched
    missingSkills := sortLex missing
    topMatches := (sortLenKey mustHaveMatched ++ sortLenKey preferredMatched ++
      sortLenKey otherMatched).take 10
    missingKeywords := (sortLenKey missingMustHave ++ sortLenKey preferredMissing ++
      sortLenKey (missing.filter (fun s => !mustHave.contains s && !preferred.contains s))).take 10
    wasTruncated := rc.2 || jc.2 }

/-! ## Specification-side definitions

Definitions in this section transcribe the SPECIFICATION's wording (not the
source), for comparison against the embedded source functions. -/

/-- Modelled from the spec: the keyword score as §4.5 words it — partition
contributions normalized by the weights of the non-empty partitions, a
clamped Jaccard adjustment, and a final clamp to [0,100].  (No rounding: the
spec does not mention any.) -/
def specKeywordScore (dict : List (String × List String)) (resumeText jobText : String)
    (mustHave preferred : List String) : ℚ :=
  let resumeSkills := extractSkills dict resumeText
  let allJd := extractSkills dict jobText
  let other := allJd.filter (fun s => !mustHave.contains s && !preferred.contains s)
  let parts : List (ℕ × ℕ × ℚ) :=
    [(interLen resumeSkills mustHave, mustHave.length, 2),
     (interLen resumeSkills preferred, preferred.length, 1),
     (interLen resumeSkills other, other.length, 1/2)]
  let contrib := (parts.map (fun p => if p.2.1 = 0 then (0 : ℚ) else p.2.2 * (p.1 : ℚ) / (p.2.1 : ℚ))).sum
  let weightTotal := (parts.map (fun p => if p.2.1 = 0 then (0 : ℚ) else p.2.2)).sum
  let base := if weightTotal = 0 then 0 else 100 * contrib / weightTotal
  let a := jaccardTokens resumeText.data
  let b := jaccardTokens jobText.data
  let inter := (a.filter (b.contains ·)).length
  let union := a.length + (b.filter (fun t => !a.contains t)).length
  let jaccard : ℚ := if union = 0 then 0 else (inter : ℚ) / union
  clamp0100 (base + max (-10) (min 10 ((jaccard - 1/20) * 100)))

/-- Modelled from the spec: the BM25 normalization `100 / (1 + e^(−0.1·(raw−5)))`
with `e` the base of the natural logarithm, as the claim words it. -/
noncomputable def specBm25Normalize (raw : ℝ) : ℝ :=
  100 / (1 + Real.exp (-(1/10) * (raw - 5)))

/-- Modelled from the spec: the snippet extraction as the claim words it —
the stripped non-blank EXPERIENCE/PROJECTS lines at least 20 characters
long, falling back to 200-character whole-resume chunks exactly when both
sections are empty, at most 20 snippets. -/
def specSnippets (resumeText : String) (sections : Sections) : List String :=
  if sections .experience = [] ∧ sections .projects = [] then
    ((chunks200 resumeText.data).take 20).map String.mk
  else
    let expLines :=
      (((splitNl (sections .experience)).map pyStrip).filter (· ≠ [])).filter
        (fun l => 20 ≤ l.length)
    let projLines :=
      (((splitNl (sections .projects)).map pyStrip).filter (· ≠ [])).filter
        (fun l => 20 ≤ l.length)
    ((expLines ++ projLines).take 20).map String.mk

/-! ## Claim-support definitions -/

/-- Declarative assignment of content lines to sections: each stripped
non-blank, non-header line is labelled with the section current at its
position (headers switch it, `OTHER` starts). -/
def labelLines : List (List Char) → SecName → List (SecName × List Char)
  | [], _ => []
  | line :: rest, cur =>
    let ls := pyStrip line
    if ls = [] then labelLines rest cur
    else
      match headerSection ls with
      | some sec => labelLines rest sec
      | none => (cur, ls) :: labelLines rest cur

/-- Concatenation of lines, each terminated by a newline. -/
def concatNl (ls : List (List Char)) : List Char := (ls.map (· ++ ['\n'])).flatten

/-- The content lines a declarative reading assigns to section `S`. -/
def sectionLines (text : List Char) (S : SecName) : List (List Char) :=
  (labelLines (splitNl text) .other).filterMap
    (fun p => if p.1 = S then some p.2 else none)

/-- The six section names. -/
def allSecNames : List SecName :=
  [.skills, .experience, .projects, .education, .certifications, .other]

/-- Total occurrences of a character across all six section blobs. -/
def charCountInSections (t : String) (c : Char) : ℕ :=
  (allSecNames.map (fun S => (splitSections t S).count c)).sum

/-- The claim's partition property: every character of the input occurs in
the six sections exactly as often as in the input. -/
def sectionCharsPreserved (t : String) : Prop :=
  ∀ c : Char, charCountInSections t c = t.data.count c

/-- A cross-encoder oracle whose `predict` always raises. -/
def predictFail : List (String × String) → Option (List ℚ) := fun _ => none

/-- A one-entry skill dictionary, for concrete evaluations. -/
def pythonOnlyDict : List (String × List String) := [("python", [])]

/-- A run of `n` middle-dot bullets, the counterexample input to
`clean_text`. -/
def bulletRun (n : ℕ) : String := String.mk (List.replicate n '·')

/-- A section map whose EXPERIENCE blob is one line of exactly 20
characters, every other section empty. -/
def expOnly20 : Sections :=
  fun S => if S = SecName.experience then ("aaaaaaaaaaaaaaaaaaaa" : String).data else []

/-- The bullet-normalized image of a bullet run: `n` copies of `"• "`. -/
def bpat : ℕ → List Char
  | 0 => []
  | n + 1 => '•' :: ' ' :: bpat n

/-- The cleaned line arising from `bpat`: bullets separated by single
spaces, no trailing space. -/
def cpat : ℕ → List Char
  | 0 => []
  | 1 => ['•']
  | n + 2 => '•' :: ' ' :: cpat (n + 1)

/-! ## Fusion-stage lemmas -/

theorem fusionCap_nonneg {α : Type} [LinearOrderedField α] (mc : ℕ) :
    (0 : α) ≤ fusionCap mc := by
  unfold fusionCap
  split <;> norm_num

theorem fusionCap_le_100 {α : Type} [LinearOrderedField α] (mc : ℕ) :
    fusionCap (α := α) mc ≤ 100 := by
  unfold fusionCap
  split <;> norm_num

theorem fusionPenalty_nonneg {α : Type} [LinearOrderedField α] (mc : ℕ) :
    (0 : α) ≤ fusionPenalty mc := by
  unfold fusionPenalty
  positivity

theorem fusionConstrained_le_cap {α : Type} [LinearOrderedField α] (raw : α) (mc : ℕ) :
    fusionConstrained raw mc ≤ fusionCap mc := by
  unfold fusionConstrained
  refine clamp0100_le_of_le ?_ (fusionCap_nonneg mc)
  have h1 : min raw (fusionCap mc) ≤ fusionCap (α := α) mc := min_le_right _ _
  have h2 : (0 : α) ≤ fusionPenalty mc := fusionPenalty_nonneg mc
  linarith

theorem round1_clamp0100_mem {α : Type} [LinearOrderedField α] [FloorRing α] (x : α) :
    0 ≤ round1 (clamp0100 x) ∧ round1 (clamp0100 x) ≤ 100 :=
  round1_mem_0_100 (clamp0100_nonneg x) (clamp0100_le_100 x)

theorem round1_fusionConstrained_le_cap {α : Type} [LinearOrderedField α] [FloorRing α]
    (raw : α) (mc : ℕ) : round1 (fusionConstrained raw mc) ≤ fusionCap mc := by
  have h := fusionConstrained_le_cap raw mc
  unfold fusionCap at h ⊢
  by_cases hm : 0 < mc
  · simp only [if_pos hm] at h ⊢
    have := round1_le_int (x := fusionConstrained raw mc) (n := 70) (by exact_mod_cast h)
    exact_mod_cast this
  · simp only [if_neg hm] at h ⊢
    have := round1_le_int (x := fusionConstrained raw mc) (n := 100) (by exact_mod_cast h)
    exact_mod_cast this

theorem capApplied_eq_pos {α : Type} [LinearOrderedField α] (mc : ℕ) :
    decide (fusionCap (α := α) mc < 100) = decide (0 < mc) := by
  unfold fusionCap
  by_cases hm : 0 < mc
  · simp [hm]
    norm_num
  · simp [hm]

/-! ## Claim theorems -/

/-- C1.  In both classic and premium modes the fusion stage uses
`cap = 70` exactly when must-have skills are missing (else `100`), penalty
`12 × missingCount`, constrained score `clamp(min(raw, cap) − penalty, 0, 100)`,
reports `capApplied` exactly when the missing count is positive, and the
resulting score never exceeds the cap — in particular it is at most 70
whenever the missing count is positive. -/
theorem fusion_cap_penalty_invariant :
    (∀ dict sim resumeText jobText,
      let res := scoreMatch dict sim resumeText jobText
      res.capApplied = decide (0 < res.missingMustHaveCount) ∧
      res.mustHavePenalty = fusionPenalty res.missingMustHaveCount ∧
      res.finalScore ≤ fusionCap res.missingMustHaveCount ∧
      fusionCap (α := ℚ) res.missingMustHaveCount =
        (if 0 < res.missingMustHaveCount then 70 else 100)) ∧
    (∀ dict simB predict bm25raw resumeText jobText,
      let res := premiumScoreMatch dict simB predict bm25raw resumeText jobText
      res.capApplied = decide (0 < res.missingMustHaveCount) ∧
      res.mustHavePenalty = fusionPenalty res.missingMustHaveCount ∧
      res.constrainedScore =
        clamp0100 (min res.rawScore (fusionCap res.missingMustHaveCount) -
          fusionPenalty res.missingMustHaveCount) ∧
      res.constrainedScore ≤ fusionCap res.missingMustHaveCount ∧
      fusionCap (α := ℝ) res.missingMustHaveCount =
        (if 0 < res.missingMustHaveCount then 70 else 100)) := by
  constructor
  · intro dict sim resumeText jobText
    refine ⟨capApplied_eq_pos _, rfl, round1_fusionConstrained_le_cap _ _, rfl⟩
  · intro dict simB predict bm25raw resumeText jobText
    exact ⟨capApplied_eq_pos _, rfl, rfl, fusionConstrained_le_cap _ _, rfl⟩

/-! Sub-score range lemmas for C2. -/

theorem fusionConstrained_mem {α : Type} [LinearOrderedField α] (raw : α) (mc : ℕ) :
    0 ≤ fusionConstrained raw mc ∧ fusionConstrained raw mc ≤ 100 :=
  ⟨clamp0100_nonneg _, clamp0100_le_100 _⟩

theorem keywordScore_mem (dict : List (String × List String)) (r j : String)
    (mh pf : List String) :
    0 ≤ keywordScore dict r j mh pf ∧ keywordScore dict r j mh pf ≤ 100 :=
  round1_clamp0100_mem _

theorem semanticScore_mem (sim : String → String → ℚ) (r j : String) (secs : Sections) :
    0 ≤ semanticScore sim r j secs ∧ semanticScore sim r j secs ≤ 100 :=
  ⟨clamp0100_nonneg _, clamp0100_le_100 _⟩

theorem evidenceScore_mem (dict : List (String × List String)) (r : String) :
    0 ≤ evidenceScore dict r ∧ evidenceScore dict r ≤ 100 :=
  round1_clamp0100_mem _

theorem calculateBm25Score_mem (bm25raw : List (List Char) → List (List Char) → ℝ)
    (r j : String) :
    0 ≤ calculateBm25Score bm25raw r j ∧ calculateBm25Score bm25raw r j ≤ 100 := by
  by_cases h : tokenize r = [] ∨ tokenize j = []
  · simp [calculateBm25Score, h]
  · simp only [calculateBm25Score, h, if_false]
    exact ⟨clamp0100_nonneg _, clamp0100_le_100 _⟩

theorem calculateRerankScore_mem (predict : List (String × String) → Option (List ℚ))
    (snips : List String) (j : String) (topK : ℕ) :
    0 ≤ calculateRerankScore predict snips j topK ∧
      calculateRerankScore predict snips j topK ≤ 100 := by
  by_cases h : snips = [] ∨ j = ""
  · simp [calculateRerankScore, h]
  · by_cases h2 : (rerankSnippets predict snips j topK).2 = []
    · simp [calculateRerankScore, h, h2]
    · simp only [calculateRerankScore, h, h2, if_false]
      exact ⟨clamp0100_nonneg _, clamp0100_le_100 _⟩

theorem semanticRetrievalScore_mem (sim : String → String → ℝ) (r j : String)
    (secs : Sections) :
    0 ≤ semanticRetrievalScore sim r j secs ∧ semanticRetrievalScore sim r j secs ≤ 100 :=
  ⟨clamp0100_nonneg _, clamp0100_le_100 _⟩

theorem sigmoidCalibrate_mem (x : ℝ) :
    0 ≤ sigmoidCalibrate x ∧ sigmoidCalibrate x ≤ 100 :=
  ⟨clamp0100_nonneg _, clamp0100_le_100 _⟩

theorem weighted_sum_mem {a b c d : ℝ}
    (ha : 0 ≤ a ∧ a ≤ 100) (hb : 0 ≤ b ∧ b ≤ 100)
    (hc : 0 ≤ c ∧ c ≤ 100) (hd : 0 ≤ d ∧ d ≤ 100) :
    0 ≤ a * (35/100) + b * (35/100) + c * (20/100) + d * (10/100) ∧
      a * (35/100) + b * (35/100) + c * (20/100) + d * (10/100) ≤ 100 := by
  obtain ⟨ha0, ha1⟩ := ha
  obtain ⟨hb0, hb1⟩ := hb
  obtain ⟨hc0, hc1⟩ := hc
  obtain ⟨hd0, hd1⟩ := hd
  constructor <;> nlinarith

set_option maxHeartbeats 1000000 in
/-- C2.  Every numeric score of a `score_match` result lies in [0, 100]:
classic final, keyword, semantic and evidence scores; premium final, BM25,
semantic-retrieval, rerank, evidence, raw, constrained and calibrated
scores. -/
theorem scores_within_bounds :
    (∀ dict sim resumeText jobText,
      let res := scoreMatch dict sim resumeText jobText
      (0 ≤ res.finalScore ∧ res.finalScore ≤ 100) ∧
      (0 ≤ res.keywordScore ∧ res.keywordScore ≤ 100) ∧
      (0 ≤ res.semanticScore ∧ res.semanticScore ≤ 100) ∧
      (0 ≤ res.evidenceScore ∧ res.evidenceScore ≤ 100)) ∧
    (∀ dict simB predict bm25raw resumeText jobText,
      let res := premiumScoreMatch dict simB predict bm25raw resumeText jobText
      (0 ≤ res.finalScore ∧ res.finalScore ≤ 100) ∧
      (0 ≤ res.bm25Score ∧ res.bm25Score ≤ 100) ∧
      (0 ≤ res.semanticRetrievalScore ∧ res.semanticRetrievalScore ≤ 100) ∧
      (0 ≤ res.rerankScore ∧ res.rerankScore ≤ 100) ∧
      (0 ≤ res.evidenceScore ∧ res.evidenceScore ≤ 100) ∧
      (0 ≤ res.rawScore ∧ res.rawScore ≤ 100) ∧
      (0 ≤ res.constrainedScore ∧ res.constrainedScore ≤ 100) ∧
      (0 ≤ res.calibratedScore ∧ res.calibratedScore ≤ 100)) := by
  constructor
  · intro dict sim resumeText jobText
    refine ⟨?_, keywordScore_mem _ _ _ _ _, semanticScore_mem _ _ _ _,
      evidenceScore_mem _ _⟩
    have h := fusionConstrained_mem (α := ℚ)
      ((keywordScore dict (cleanText resumeText).1 (cleanText jobText).1
          (extractRequirements dict (cleanText jobText).1).1
          (extractRequirements dict (cleanText jobText).1).2) * (55/100) +
        (semanticScore sim (cleanText resumeText).1 (cleanText jobText).1
          (splitSections (cleanText resumeText).1)) * (35/100) +
        (evidenceScore dict (cleanText resumeText).1) * (10/100))
      (((extractRequirements dict (cleanText jobText).1).1.filter
        (fun s => !(extractSkills dict (cleanText resumeText).1).contains s)).length)
    exact round1_mem_0_100 h.1 h.2
  · intro dict simB predict bm25raw resumeText jobText
    have hb := calculateBm25Score_mem bm25raw (cleanText resumeText).1 (cleanText jobText).1
    have hs := semanticRetrievalScore_mem simB (cleanText resumeText).1 (cleanText jobText).1
      (splitSections (cleanText resumeText).1)
    have hr := calculateRerankScore_mem predict
      (extractSnippets (cleanText resumeText).1 (splitSections (cleanText resumeText).1))
      (cleanText jobText).1 5
    have he : 0 ≤ (↑(evidenceScore dict (cleanText resumeText).1) : ℝ) ∧
        (↑(evidenceScore dict (cleanText resumeText).1) : ℝ) ≤ 100 := by
      have h := evidenceScore_mem dict (cleanText resumeText).1
      constructor
      · exact_mod_cast h.1
      · exact_mod_cast h.2
    have hraw := weighted_sum_mem hb hs hr he
    exact ⟨sigmoidCalibrate_mem _, hb, hs, hr, he, hraw,
      fusionConstrained_mem _ _, sigmoidCalibrate_mem _⟩

/-! Rounding of exact integers, for the C4 and C8 computations. -/

theorem pyRoundInt_intCast {α : Type} [LinearOrderedField α] [FloorRing α] (n : ℤ) :
    pyRoundInt ((n : α)) = n := by
  unfold pyRoundInt
  rw [Int.floor_intCast]
  simp

theorem round1_intCast {α : Type} [LinearOrderedField α] [FloorRing α] (n : ℤ) :
    round1 ((n : α)) = n := by
  unfold round1
  have h : (10 : α) * n = ((10 * n : ℤ) : α) := by push_cast; ring
  rw [h, pyRoundInt_intCast]
  push_cast
  ring

theorem rerankNormalize_zero : rerankNormalize 0 = 50 := by
  unfold rerankNormalize
  rw [mul_zero, Real.rpow_zero]
  norm_num

/-- The value `calculate_rerank_score` produces when `model.predict` raises:
the neutral per-snippet scores `0.0` average to `0` and the sigmoid maps the
average to `50.0`. -/
theorem rerank_failure_value (snips : List String) (jobText : String) :
    calculateRerankScore predictFail snips jobText 5 =
      if snips = [] ∨ jobText = "" then 0 else 50 := by
  by_cases h : snips = [] ∨ jobText = ""
  · simp [calculateRerankScore, h]
  · have hlen : snips ≠ [] := by
      intro hc
      exact h (Or.inl hc)
    have hpos : 0 < snips.length := List.length_pos.mpr hlen
    have hmin : ¬ (min snips.length 5 = 0) := by omega
    have hscores : (rerankSnippets predictFail snips jobText 5).2 =
        List.replicate (min snips.length 5) 0 := by
      simp [rerankSnippets, h, predictFail]
    unfold calculateRerankScore
    rw [if_neg h]
    simp only [hscores]
    have havg : (List.replicate (min snips.length 5) (0 : ℚ)).sum /
        ((List.replicate (min snips.length 5) (0 : ℚ)).length : ℚ) = 0 := by
      simp
    simp only [havg, hmin, if_false, Rat.cast_zero, rerankNormalize_zero]
    have h50 : round1 ((50 : ℝ)) = 50 := by
      have := round1_intCast (α := ℝ) 50
      norm_num at this
      exact this
    rw [h50]
    unfold clamp0100
    norm_num
    push_neg at h
    simp [hlen, h.2]

/-- C4, counterexample.  With a failing cross-encoder, a non-empty snippet
list and non-empty job text, the rerank sub-score is `50`, not the claimed
neutral `0.0`. -/
theorem rerank_failure_not_zero :
    calculateRerankScore predictFail ["Built a large distributed system"] "job text" 5 = 50 ∧
    calculateRerankScore predictFail ["Built a large distributed system"] "job text" 5 ≠ 0 := by
  have h := rerank_failure_value ["Built a large distributed system"] "job text"
  simp only [List.cons_ne_nil, false_or, if_neg (by decide : ¬("job text" : String) = "")] at h
  exact ⟨h, by rw [h]; norm_num⟩

/-- C4, amended.  When the cross-encoder's `predict` raises, the rerank
sub-score degrades to `50.0` for every non-empty snippet list and non-empty
job text (and to `0.0` when the snippet list or job text is empty), rather
than propagating the exception. -/
theorem rerank_failure_yields_50 (snips : List String) (jobText : String) :
    calculateRerankScore predictFail snips jobText 5 =
      if snips = [] ∨ jobText = "" then 0 else 50 :=
  rerank_failure_value snips jobText

/-! C8: the BM25 normalization uses the literal base `2.71828`, not `e`. -/

/-- C8, counterexample.  At raw score 15 the source's normalization
`100 / (1 + 2.71828 ** (−0.1·(raw−5)))` differs from the claimed map
`100 / (1 + e^(−0.1·(raw−5)))` with `e` the base of the natural logarithm:
`2.71828 < e`, and the map is strictly monotone in the base. -/
theorem bm25_base_not_e : bm25Normalize 15 ≠ specBm25Normalize 15 := by
  unfold bm25Normalize specBm25Normalize
  have hexp : (-(1/10) * ((15 : ℝ) - 5)) = -1 := by norm_num
  rw [hexp]
  have h1 : ((2.71828 : ℝ)) ^ (-1 : ℝ) = (2.71828 : ℝ)⁻¹ := by
    have : ((-1 : ℝ)) = ((-1 : ℤ) : ℝ) := by norm_num
    rw [this, Real.rpow_intCast]
    norm_num
  have h2 : Real.exp (-1) = (Real.exp 1)⁻¹ := by
    rw [← Real.exp_neg]
  rw [h1, h2]
  have hlt : (2.71828 : ℝ) < Real.exp 1 := by
    have := Real.exp_one_gt_d9
    linarith
  have hpos : (0 : ℝ) < 2.71828 := by norm_num
  have hepos : (0 : ℝ) < Real.exp 1 := Real.exp_pos 1
  have hinv : (Real.exp 1)⁻¹ < (2.71828 : ℝ)⁻¹ := by
    exact inv_lt_inv_of_lt hpos hlt
  have hinvpos : (0 : ℝ) < (Real.exp 1)⁻¹ := by positivity
  have hd1 : (0 : ℝ) < 1 + (Real.exp 1)⁻¹ := by linarith
  have hd2 : (0 : ℝ) < 1 + (2.71828 : ℝ)⁻¹ := by positivity
  have hlt2 : (100 : ℝ) / (1 + (2.71828 : ℝ)⁻¹) < 100 / (1 + (Real.exp 1)⁻¹) := by
    apply div_lt_div_of_pos_left (by norm_num) hd1
    linarith
  exact ne_of_lt hlt2

/-- C8, amended.  `calculate_bm25_score` returns exactly `0.0` when either
text tokenizes to nothing (in particular on two empty strings), and
otherwise maps the raw BM25 score of the resume document through
`100 / (1 + 2.71828 ** (−0.1·(raw−5)))` — the literal constant `2.71828`,
not `e` — rounded to one decimal and clamped to [0, 100]. -/
theorem bm25_score_characterization :
    (∀ (bm25raw : List (List Char) → List (List Char) → ℝ) (r j : String),
      calculateBm25Score bm25raw r j =
        if tokenize r = [] ∨ tokenize j = [] then 0
        else clamp0100 (round1 (bm25Normalize (bm25raw (tokenize r) (tokenize j))))) ∧
    (∀ bm25raw : List (List Char) → List (List Char) → ℝ,
      calculateBm25Score bm25raw "" "" = 0) := by
  constructor
  · intro bm25raw r j
    rfl
  · intro bm25raw
    have ht : tokenize "" = [] := by
      simp [tokenize, lowerStr, findTokens, findTokensAux]
    simp [calculateBm25Score, ht]

/-! C6: must-have extraction can return the empty set on non-empty job
text — a non-empty must-have SOURCE text does not guarantee any dictionary
skill occurs in it. -/

/-- C6, counterexample.  With the one-entry dictionary `python`, the
non-empty job text `"aaa"` classifies no line as must-have, falls back to
its first 500 characters, finds no dictionary skill there, and returns an
empty must-have set. -/
theorem must_have_set_empty_on_nonempty_job :
    ("aaa" : String) ≠ "" ∧ (extractRequirements pythonOnlyDict "aaa").1 = [] := by
  constructor
  · decide
  · decide

theorem lineMatchesAny_ne_nil {pats : List (List String)} {l : List Char}
    (h : lineMatchesAny pats l = true) : l ≠ [] := by
  intro hl
  subst hl
  simp [lineMatchesAny, lowerStr] at h
  obtain ⟨p, _, hp⟩ := h
  cases p <;> simp [seqSearch] at hp

theorem joinSpace_length_pos {l0 : List Char} (rest : List (List Char))
    (h : l0 ≠ []) : 1 ≤ (joinSpace (l0 :: rest)).length := by
  have hpos : 0 < l0.length := List.length_pos.mpr h
  cases rest with
  | nil => simpa [joinSpace] using hpos
  | cons r rs =>
    simp [joinSpace]
    omega

/-- C6, amended.  The must-have source text is the classified lines joined
by spaces, or — when no line matches a must-have pattern — the first 500
characters of the job text; the source text is non-empty whenever the job
text is, and the must-have skill set is exactly the dictionary skills found
in that source (which may be empty even for non-empty job text). -/
theorem must_have_source_characterization (dict : List (String × List String))
    (job : String) :
    (extractRequirements dict job).1 =
        extractSkills dict (String.mk (mustHaveSourceChars job.data)) ∧
    mustHaveSourceChars job.data =
        (if mustHaveLines job.data = [] then job.data.take 500
         else joinSpace (mustHaveLines job.data)) ∧
    min 1 job.data.length ≤ (mustHaveSourceChars job.data).length := by
  refine ⟨rfl, rfl, ?_⟩
  by_cases h : mustHaveLines job.data = []
  · unfold mustHaveSourceChars
    rw [if_pos h]
    rw [List.length_take]
    omega
  · unfold mustHaveSourceChars
    rw [if_neg h]
    obtain ⟨l0, rest, hcons⟩ := List.exists_cons_of_ne_nil h
    have hmem : l0 ∈ mustHaveLines job.data := by
      rw [hcons]
      exact List.mem_cons_self _ _
    have hmatch : lineMatchesAny mustPatterns l0 = true :=
      (List.mem_filter.mp hmem).2
    have hne : l0 ≠ [] := lineMatchesAny_ne_nil hmatch
    rw [hcons]
    have := joinSpace_length_pos rest hne
    omega

/-! C7: header lines (and blank lines, and stripped whitespace) belong to no
section, so the claimed character partition fails; what holds is a partition
of the stripped non-blank, non-header LINES. -/

/-- C7, counterexample.  In `"skills\npython"` the header line `skills`
is dropped by `split_sections`: its characters appear in no section, so the
claimed every-character partition is false. -/
theorem split_sections_drops_header_chars :
    ¬ sectionCharsPreserved "skills\npython" := by
  intro h
  have hs := h 's'
  have h1 : charCountInSections "skills\npython" 's' = 0 := by decide
  have h2 : ("skills\npython" : String).data.count 's' = 2 := by decide
  omega

theorem concatNl_append (a b : List (List Char)) :
    concatNl (a ++ b) = concatNl a ++ concatNl b := by
  simp [concatNl]

theorem joinNl_newline_eq_concatNl {buf : List (List Char)} (h : buf ≠ []) :
    joinNl buf ++ ['\n'] = concatNl buf := by
  induction buf with
  | nil => exact absurd rfl h
  | cons l rest ih =>
    cases rest with
    | nil => simp [joinNl, concatNl]
    | cons r rs =>
      have hne : r :: rs ≠ [] := by simp
      have := ih hne
      simp only [joinNl, concatNl, List.map_cons, List.flatten_cons] at this ⊢
      rw [List.append_assoc]
      rw [← this]
      simp

theorem flushBuf_apply (secs : Sections) (cur : SecName) (buf : List (List Char))
    (S : SecName) :
    flushBuf secs cur buf S = secs S ++ concatNl (if S = cur then buf else []) := by
  by_cases hb : buf = []
  · subst hb
    simp [flushBuf, concatNl]
  · unfold flushBuf
    rw [if_neg hb]
    unfold addTo
    by_cases hS : S = cur
    · rw [if_pos hS, if_pos hS, joinNl_newline_eq_concatNl hb]
    · rw [if_neg hS, if_neg hS]
      simp [concatNl]

theorem runSplit_characterization (lines : List (List Char)) :
    ∀ (cur : SecName) (buf : List (List Char)) (secs : Sections) (S : SecName),
      runSplit lines cur buf secs S =
        secs S ++ concatNl ((if S = cur then buf else []) ++
          (labelLines lines cur).filterMap
            (fun p => if p.1 = S then some p.2 else none)) := by
  induction lines with
  | nil =>
    intro cur buf secs S
    simp only [runSplit, labelLines, List.filterMap_nil, List.append_nil]
    exact flushBuf_apply secs cur buf S
  | cons line rest ih =>
    intro cur buf secs S
    by_cases hblank : pyStrip line = []
    · have h1 : runSplit (line :: rest) cur buf secs =
          runSplit rest cur [] (flushBuf secs cur buf) := by
        simp [runSplit, hblank]
      have h2 : labelLines (line :: rest) cur = labelLines rest cur := by
        simp [labelLines, hblank]
      rw [h1, h2, ih cur [] (flushBuf secs cur buf) S, flushBuf_apply secs cur buf S]
      rw [concatNl_append]
      simp [concatNl]
    · cases hhead : headerSection (pyStrip line) with
      | some sec =>
        have h1 : runSplit (line :: rest) cur buf secs =
            runSplit rest sec [] (flushBuf secs cur buf) := by
          simp [runSplit, hblank, hhead]
        have h2 : labelLines (line :: rest) cur = labelLines rest sec := by
          simp [labelLines, hblank, hhead]
        rw [h1, h2, ih sec [] (flushBuf secs cur buf) S, flushBuf_apply secs cur buf S]
        rw [concatNl_append]
        simp [concatNl]
      | none =>
        have h1 : runSplit (line :: rest) cur buf secs =
            runSplit rest cur (buf ++ [pyStrip line]) secs := by
          simp [runSplit, hblank, hhead]
        have h2 : labelLines (line :: rest) cur =
            (cur, pyStrip line) :: labelLines rest cur := by
          simp [labelLines, hblank, hhead]
        rw [h1, h2, ih cur (buf ++ [pyStrip line]) secs S]
        rw [List.filterMap_cons]
        by_cases hS : S = cur
        · subst hS
          simp [concatNl_append, concatNl]
        · have hcur : ¬ (cur = S) := fun hc => hS hc.symm
          simp [hS, hcur]

/-- C7, amended.  `split_sections` partitions the stripped non-blank,
non-header lines (not every character): each such line is assigned to
exactly one section — the section current at its position, `OTHER` before
any header — and each section blob is exactly those lines in input order,
each terminated by a newline; repeated headers of the same name append.
Header and blank lines, and whitespace stripped from line ends, appear in
no section. -/
theorem split_sections_line_partition (s : String) (S : SecName) :
    splitSections s S = concatNl (sectionLines s.data S) := by
  unfold splitSections splitSectionsChars sectionLines
  rw [runSplit_characterization (splitNl s.data) .other [] initSections S]
  simp [initSections]

/-! C9: the snippet length threshold is strict (`len(line) > 20`), and the
chunk fallback triggers whenever NO line passes the filter, not only when
both sections are empty. -/

/-- C9, counterexample.  A section map whose EXPERIENCE section is a single
line of exactly 20 characters: the claim predicts that line as the sole
snippet, but the source filters it out (`> 20` is strict), falls back to
chunking the (empty) resume, and returns no snippet at all. -/
theorem snippet_threshold_not_20 :
    extractSnippets "" expOnly20 = [] ∧
    specSnippets "" expOnly20 = ["aaaaaaaaaaaaaaaaaaaa"] := by
  constructor
  · have hch : chunks200 ("" : String).data = [] := by
      rw [show ("" : String).data = [] from rfl]
      simp [chunks200]
    unfold extractSnippets
    rw [hch]
    decide
  · decide

theorem filter_ne_nil_length {l : List (List Char)} :
    (l.filter (· ≠ [])).filter (fun c => 20 < c.length) =
      l.filter (fun c => 20 < c.length) := by
  rw [List.filter_filter]
  apply List.filter_congr
  intro a _
  by_cases h : 20 < a.length
  · have : a ≠ [] := by
      intro hc
      subst hc
      simp at h
    simp [h, this]
  · simp [h]

/-- C9, amended.  The snippets are the stripped lines of the stripped
EXPERIENCE and PROJECTS blobs that are STRICTLY longer than 20 characters
(a 20-character line is dropped); whenever NO such line exists — in
particular, but not only, when both sections are empty — the extractor
falls back to 200-character chunks of the resume, stripped and filtered by
the same strict threshold; at most 20 snippets are returned. -/
theorem snippets_characterization (r : String) (secs : Sections) :
    extractSnippets r secs =
      ((let mainLines :=
          ((splitNl (pyStrip (secs .experience))).map pyStrip).filter
            (fun l => 20 < l.length) ++
          ((splitNl (pyStrip (secs .projects))).map pyStrip).filter
            (fun l => 20 < l.length)
        if mainLines = [] then
          ((chunks200 r.data).map pyStrip).filter (fun c => 20 < c.length)
        else mainLines).take 20).map String.mk ∧
    (extractSnippets r secs).length ≤ 20 := by
  constructor
  · unfold extractSnippets
    have he : (if pyStrip (secs .experience) ≠ [] then
        (((splitNl (pyStrip (secs .experience))).map pyStrip).filter (· ≠ [])).filter
          (fun l => 20 < l.length)
        else []) =
        ((splitNl (pyStrip (secs .experience))).map pyStrip).filter
          (fun l => 20 < l.length) := by
      split
      · exact filter_ne_nil_length
      · rename_i hx
        push_neg at hx
        rw [hx]
        simp [splitNl, pyStrip, List.filter]
    have hp : (if pyStrip (secs .projects) ≠ [] then
        (((splitNl (pyStrip (secs .projects))).map pyStrip).filter (· ≠ [])).filter
          (fun l => 20 < l.length)
        else []) =
        ((splitNl (pyStrip (secs .projects))).map pyStrip).filter
          (fun l => 20 < l.length) := by
      split
      · exact filter_ne_nil_length
      · rename_i hx
        push_neg at hx
        rw [hx]
        simp [splitNl, pyStrip, List.filter]
    simp only [he, hp]
  · have h : (extractSnippets r secs).length ≤ 20 := by
      unfold extractSnippets
      simp only [List.length_map, List.length_take]
      omega
    exact h

/-! C5: `clean_text` truncates FIRST, and bullet normalization can expand
the text, so the output length is not bounded by 25,000. -/

theorem dropWhile_replicate_not {p : Char → Bool} {a : Char} (h : p a = false) (n : ℕ) :
    List.dropWhile p (List.replicate n a) = List.replicate n a := by
  cases n with
  | zero => simp
  | succ m => simp [List.replicate_succ, List.dropWhile_cons, h]

theorem bulletNorm_replicate (n : ℕ) :
    bulletNorm (List.replicate n '·') = bpat n := by
  induction n with
  | zero => simp [bulletNorm, bpat]
  | succ m ih =>
    rw [List.replicate_succ]
    rw [bulletNorm]
    rw [if_pos (by decide : isBullet '·' = true)]
    rw [dropWhile_replicate_not (by decide : isPySpace '·' = false)]
    rw [ih]
    rfl

theorem bpat_mem {c : Char} : ∀ {n : ℕ}, c ∈ bpat n → c = '•' ∨ c = ' ' := by
  intro n
  induction n with
  | zero => intro h; simp [bpat] at h
  | succ m ih =>
    intro h
    simp only [bpat, List.mem_cons] at h
    rcases h with h | h | h
    · exact Or.inl h
    · exact Or.inr h
    · exact ih h

theorem dashNorm_bpat (n : ℕ) : dashNorm (bpat n) = bpat n := by
  induction n with
  | zero => simp [dashNorm, bpat]
  | succ m ih =>
    show dashNorm ('•' :: ' ' :: bpat m) = '•' :: ' ' :: bpat m
    rw [dashNorm]
    rw [if_neg (by decide : ¬ isDash '•' = true)]
    rw [dashNorm]
    rw [if_neg (by decide : ¬ isDash ' ' = true)]
    rw [ih]

theorem dehyphenate_bpat (n : ℕ) : dehyphenate (bpat n) = bpat n := by
  induction n with
  | zero => simp [dehyphenate, bpat]
  | succ m ih =>
    show dehyphenate ('•' :: ' ' :: bpat m) = '•' :: ' ' :: bpat m
    rw [dehyphenate]
    rw [if_neg (by decide : ¬ isWordChar '•' = true)]
    rw [dehyphenate]
    rw [if_neg (by decide : ¬ isWordChar ' ' = true)]
    rw [ih]

theorem splitNl_no_newline {l : List Char} (h : ∀ c ∈ l, c ≠ '\n') :
    splitNl l = [l] := by
  induction l with
  | nil => rfl
  | cons c rest ih =>
    have hc : c ≠ '\n' := h c (List.mem_cons_self _ _)
    have hr : splitNl rest = [rest] := ih (fun x hx => h x (List.mem_cons_of_mem _ hx))
    rw [splitNl, if_neg hc, hr]

theorem bpat_succ_eq (n : ℕ) : bpat (n + 1) = cpat (n + 1) ++ [' '] := by
  induction n with
  | zero => rfl
  | succ m ih =>
    show '•' :: ' ' :: bpat (m + 1) = ('•' :: ' ' :: cpat (m + 1)) ++ [' ']
    rw [ih]
    rfl

theorem rev_cpat_head (n : ℕ) : ∃ t, (cpat (n + 1)).reverse = '•' :: t := by
  induction n with
  | zero => exact ⟨[], rfl⟩
  | succ m ih =>
    obtain ⟨t, ht⟩ := ih
    refine ⟨t ++ [' ', '•'], ?_⟩
    show ('•' :: ' ' :: cpat (m + 1)).reverse = '•' :: (t ++ [' ', '•'])
    simp [ht]

theorem pyStrip_bpat (n : ℕ) : pyStrip (bpat (n + 1)) = cpat (n + 1) := by
  unfold pyStrip
  have h1 : (bpat (n + 1)).dropWhile isPySpace = bpat (n + 1) := by
    show List.dropWhile isPySpace ('•' :: ' ' :: bpat n) = '•' :: ' ' :: bpat n
    rw [List.dropWhile_cons_of_neg (by decide)]
  rw [h1, bpat_succ_eq n]
  obtain ⟨t, ht⟩ := rev_cpat_head n
  rw [List.reverse_append]
  show (([' '].reverse ++ (cpat (n+1)).reverse).dropWhile isPySpace).reverse = cpat (n + 1)
  rw [ht]
  show ((' ' :: '•' :: t).dropWhile isPySpace).reverse = cpat (n + 1)
  rw [List.dropWhile_cons_of_pos (by decide), List.dropWhile_cons_of_neg (by decide)]
  rw [← ht]
  simp

theorem collapse_cpat (n : ℕ) : collapseSpaces (cpat (n + 1)) = cpat (n + 1) := by
  induction n with
  | zero =>
    show collapseSpaces ['•'] = ['•']
    rw [collapseSpaces, if_neg (by decide : ¬ isSpaceTab '•' = true)]
    rw [collapseSpaces]
  | succ m ih =>
    show collapseSpaces ('•' :: ' ' :: cpat (m + 1)) = '•' :: ' ' :: cpat (m + 1)
    rw [collapseSpaces, if_neg (by decide : ¬ isSpaceTab '•' = true)]
    rw [collapseSpaces, if_pos (by decide : isSpaceTab ' ' = true)]
    have hd : (cpat (m + 1)).dropWhile isSpaceTab = cpat (m + 1) := by
      cases m with
      | zero => rw [show cpat 1 = ['•'] from rfl, List.dropWhile_cons_of_neg (by decide)]
      | succ k =>
        show List.dropWhile isSpaceTab ('•' :: ' ' :: cpat (k + 1)) = '•' :: ' ' :: cpat (k + 1)
        rw [List.dropWhile_cons_of_neg (by decide)]
    rw [hd, ih]

theorem cpat_ne_nil (n : ℕ) : cpat (n + 1) ≠ [] := by
  cases n with
  | zero => decide
  | succ m =>
    show '•' :: ' ' :: cpat (m + 1) ≠ []
    simp

theorem cpat_length (n : ℕ) : (cpat (n + 1)).length = 2 * n + 1 := by
  induction n with
  | zero => rfl
  | succ m ih =>
    show ('•' :: ' ' :: cpat (m + 1)).length = 2 * (m + 1) + 1
    simp only [List.length_cons, ih]
    ring

theorem cleanTextChars_bulletRun :
    cleanTextChars (List.replicate 25001 '·') = (cpat 25000, true) := by
  have hlen : (List.replicate 25001 '·').length = 25001 := List.length_replicate _ _
  have hne : List.replicate 25001 '·' ≠ [] := by
    apply List.length_pos.mp
    rw [hlen]
    norm_num
  have htr : decide (MAX_TEXT_LENGTH < (List.replicate 25001 '·').length) = true := by
    rw [hlen]
    decide
  have ht0 : (List.replicate 25001 '·').take MAX_TEXT_LENGTH = List.replicate 25000 '·' := by
    rw [List.take_replicate]
    norm_num [MAX_TEXT_LENGTH]
  have hsplit : splitNl (bpat 25000) = [bpat 25000] := by
    apply splitNl_no_newline
    intro c hc
    rcases bpat_mem hc with h | h <;> simp [h]
  have hclean : cleanLine (bpat 25000) = cpat 25000 := by
    rw [show (25000 : ℕ) = 24999 + 1 from by norm_num]
    unfold cleanLine
    rw [pyStrip_bpat, collapse_cpat]
  have hne2 : cpat 25000 ≠ [] := by
    rw [show (25000 : ℕ) = 24999 + 1 from by norm_num]
    exact cpat_ne_nil 24999
  have hjoin : joinNl [cpat 25000] = cpat 25000 := rfl
  unfold cleanTextChars
  rw [if_neg hne]
  simp only [htr, ht0, bulletNorm_replicate, dashNorm_bpat, dehyphenate_bpat, hsplit,
    List.map_cons, List.map_nil, hclean, List.filter_cons, List.filter_nil, hne2,
    decide_not, List.length_cons, List.length_nil, hjoin]
  simp [hne2, hjoin]

/-- C5, counterexample.  On 25,001 middle-dot bullets, `clean_text`
truncates to 25,000 characters FIRST and then bullet normalization doubles
each bullet to `"• "`, so the flag is set but the returned string has
49,999 characters — more than the claimed 25,000 bound. -/
theorem clean_text_output_can_exceed_max :
    (cleanText (bulletRun 25001)).2 = true ∧
    MAX_TEXT_LENGTH < (cleanText (bulletRun 25001)).1.length := by
  have hdata : (bulletRun 25001).data = List.replicate 25001 '·' := rfl
  have h1 : cleanText (bulletRun 25001) = (String.mk (cpat 25000), true) := by
    unfold cleanText
    simp only [hdata, cleanTextChars_bulletRun]
  rw [h1]
  constructor
  · rfl
  · have h2 : (String.mk (cpat 25000)).length = (cpat 25000).length := rfl
    show MAX_TEXT_LENGTH < (String.mk (cpat 25000)).length
    rw [h2]
    rw [show (25000 : ℕ) = 24999 + 1 from by norm_num, cpat_length]
    norm_num [MAX_TEXT_LENGTH]

theorem take_ne_nil_of_ne_nil {l : List Char} (h : l ≠ []) :
    l.take MAX_TEXT_LENGTH ≠ [] := by
  intro hc
  rcases List.take_eq_nil_iff.mp hc with h0 | h0
  · exact absurd h0 (by norm_num [MAX_TEXT_LENGTH])
  · exact h h0

/-- C5, amended.  Truncation to 25,000 characters is the FIRST step of
`clean_text`, before bullet/dash normalization, de-hyphenation, whitespace
collapse and repeated-line removal: the output depends only on the first
25,000 characters of the input, and the truncation flag is True exactly
when the input is longer than 25,000 characters (characters were cut).  The
returned string may be longer than 25,000 characters, because bullet and
dash normalization insert spaces. -/
theorem clean_text_truncates_first (s : String) :
    cleanText s =
      ((cleanText (String.mk (s.data.take MAX_TEXT_LENGTH))).1,
        decide (MAX_TEXT_LENGTH < s.data.length)) := by
  by_cases hl : s.data = []
  · unfold cleanText cleanTextChars
    simp [hl]
  · have ht : s.data.take MAX_TEXT_LENGTH ≠ [] := take_ne_nil_of_ne_nil hl
    unfold cleanText cleanTextChars
    rw [if_neg hl]
    have hdm : (String.mk (s.data.take MAX_TEXT_LENGTH)).data = s.data.take MAX_TEXT_LENGTH :=
      rfl
    rw [hdm, if_neg ht]
    have htt : (s.data.take MAX_TEXT_LENGTH).take MAX_TEXT_LENGTH =
        s.data.take MAX_TEXT_LENGTH := by
      rw [List.take_take]
      simp
    rw [htt]

/-! C10: the lexicographic order underlying `sorted` is total and
transitive, and matched/missing skills partition the job skills. -/

theorem charToNat_inj {a b : Char} (h : a.toNat = b.toNat) : a = b :=
  Char.eq_of_val_eq (UInt32.ext h)

theorem strLtB_trichotomy : ∀ a b : List Char,
    strLtB a b = true ∨ a = b ∨ strLtB b a = true := by
  intro a
  induction a with
  | nil =>
    intro b
    cases b with
    | nil => exact Or.inr (Or.inl rfl)
    | cons c cs => exact Or.inl rfl
  | cons x xs ih =>
    intro b
    cases b with
    | nil => exact Or.inr (Or.inr rfl)
    | cons y ys =>
      rcases Nat.lt_trichotomy x.toNat y.toNat with h | h | h
      · apply Or.inl
        simp [strLtB, charLtB, h]
      · have hxy : x = y := charToNat_inj h
        subst hxy
        rcases ih ys with h2 | h2 | h2
        · apply Or.inl
          simp [strLtB, charLtB, h2]
        · exact Or.inr (Or.inl (by rw [h2]))
        · apply Or.inr
          apply Or.inr
          simp [strLtB, charLtB, h2]
      · apply Or.inr
        apply Or.inr
        simp [strLtB, charLtB, h]

theorem strLtB_trans : ∀ a b c : List Char,
    strLtB a b = true → strLtB b c = true → strLtB a c = true := by
  intro a
  induction a with
  | nil =>
    intro b c h1 h2
    cases b with
    | nil => simp [strLtB] at h1
    | cons y ys =>
      cases c with
      | nil => simp [strLtB] at h2
      | cons z zs => rfl
  | cons x xs ih =>
    intro b c h1 h2
    cases b with
    | nil => simp [strLtB] at h1
    | cons y ys =>
      cases c with
      | nil => simp [strLtB] at h2
      | cons z zs =>
        simp only [strLtB, charLtB, Bool.or_eq_true, Bool.and_eq_true,
          decide_eq_true_eq] at h1 h2 ⊢
        rcases h1 with h1 | ⟨he1, h1⟩
        · rcases h2 with h2 | ⟨he2, h2⟩
          · exact Or.inl (Nat.lt_trans h1 h2)
          · subst he2
            exact Or.inl h1
        · subst he1
          rcases h2 with h2 | ⟨he2, h2⟩
          · exact Or.inl h2
          · subst he2
            exact Or.inr ⟨rfl, ih _ _ h1 h2⟩

theorem strLexLe_total (a b : String) : strLexLe a b ∨ strLexLe b a := by
  unfold strLexLe strLeB
  rcases strLtB_trichotomy a.data b.data with h | h | h
  · apply Or.inl
    simp [h]
  · apply Or.inl
    simp [h]
  · apply Or.inr
    simp [h]

theorem strLexLe_trans (a b c : String) :
    strLexLe a b → strLexLe b c → strLexLe a c := by
  unfold strLexLe strLeB
  intro h1 h2
  simp only [Bool.or_eq_true, decide_eq_true_eq] at h1 h2 ⊢
  rcases h1 with h1 | h1
  · rcases h2 with h2 | h2
    · exact Or.inl (strLtB_trans _ _ _ h1 h2)
    · rw [← h2]
      exact Or.inl h1
  · rw [h1]
    rcases h2 with h2 | h2
    · exact Or.inl h2
    · exact Or.inr h2

theorem sortLex_sorted (l : List String) : List.Sorted strLexLe (sortLex l) := by
  haveI : IsTotal String strLexLe := ⟨strLexLe_total⟩
  haveI : IsTrans String strLexLe := ⟨fun a b c => strLexLe_trans a b c⟩
  exact List.sorted_insertionSort _ _

theorem mem_sortLex_filter_contains {a b : List String} {t : String} :
    t ∈ sortLex (a.filter (b.contains ·)) ↔ t ∈ a ∧ t ∈ b := by
  unfold sortLex
  rw [List.mem_insertionSort, List.mem_filter]
  constructor
  · rintro ⟨h1, h2⟩
    exact ⟨h1, List.elem_iff.mp h2⟩
  · rintro ⟨h1, h2⟩
    exact ⟨h1, List.elem_iff.mpr h2⟩

theorem mem_sortLex_filter_not_contains {a b : List String} {t : String} :
    t ∈ sortLex (a.filter (fun s => !b.contains s)) ↔ t ∈ a ∧ t ∉ b := by
  unfold sortLex
  rw [List.mem_insertionSort, List.mem_filter]
  constructor
  · rintro ⟨h1, h2⟩
    refine ⟨h1, fun hc => ?_⟩
    rw [Bool.not_eq_true'] at h2
    have hc2 : b.contains t = true := List.elem_iff.mpr hc
    rw [h2] at hc2
    exact Bool.false_ne_true hc2
  · rintro ⟨h1, h2⟩
    refine ⟨h1, ?_⟩
    rw [Bool.not_eq_true']
    cases hb : b.contains t with
    | false => rfl
    | true =>
      have hm : t ∈ b := List.elem_iff.mp hb
      exact absurd hm h2

/-- C10.  In both modes, `matchedSkills` is (as a set) the intersection of
the resume skills with the job skills of the cleaned job text,
`missingSkills` is the job skills minus the resume skills, the two lists
are disjoint, together they are exactly the job skills, and each list is
sorted lexicographically by code point. -/
theorem matched_missing_partition_sorted :
    (∀ dict sim resumeText jobText,
      let res := scoreMatch dict sim resumeText jobText
      let resumeSkills := extractSkills dict (cleanText resumeText).1
      let jobSkills := extractSkills dict (cleanText jobText).1
      (∀ t, t ∈ res.matchedSkills ↔ t ∈ resumeSkills ∧ t ∈ jobSkills) ∧
      (∀ t, t ∈ res.missingSkills ↔ t ∈ jobSkills ∧ t ∉ resumeSkills) ∧
      (∀ t, ¬(t ∈ res.matchedSkills ∧ t ∈ res.missingSkills)) ∧
      (∀ t, t ∈ jobSkills ↔ t ∈ res.matchedSkills ∨ t ∈ res.missingSkills) ∧
      List.Sorted strLexLe res.matchedSkills ∧
      List.Sorted strLexLe res.missingSkills) ∧
    (∀ dict simB predict bm25raw resumeText jobText,
      let res := premiumScoreMatch dict simB predict bm25raw resumeText jobText
      let resumeSkills := extractSkills dict (cleanText resumeText).1
      let jobSkills := extractSkills dict (cleanText jobText).1
      (∀ t, t ∈ res.matchedSkills ↔ t ∈ resumeSkills ∧ t ∈ jobSkills) ∧
      (∀ t, t ∈ res.missingSkills ↔ t ∈ jobSkills ∧ t ∉ resumeSkills) ∧
      (∀ t, ¬(t ∈ res.matchedSkills ∧ t ∈ res.missingSkills)) ∧
      (∀ t, t ∈ jobSkills ↔ t ∈ res.matchedSkills ∨ t ∈ res.missingSkills) ∧
      List.Sorted strLexLe res.matchedSkills ∧
      List.Sorted strLexLe res.missingSkills) := by
  have main : ∀ (resumeSkills jobSkills : List String),
      (∀ t, t ∈ sortLex (resumeSkills.filter (jobSkills.contains ·)) ↔
        t ∈ resumeSkills ∧ t ∈ jobSkills) ∧
      (∀ t, t ∈ sortLex (jobSkills.filter (fun s => !resumeSkills.contains s)) ↔
        t ∈ jobSkills ∧ t ∉ resumeSkills) ∧
      (∀ t, ¬(t ∈ sortLex (resumeSkills.filter (jobSkills.contains ·)) ∧
        t ∈ sortLex (jobSkills.filter (fun s => !resumeSkills.contains s)))) ∧
      (∀ t, t ∈ jobSkills ↔
        t ∈ sortLex (resumeSkills.filter (jobSkills.contains ·)) ∨
        t ∈ sortLex (jobSkills.filter (fun s => !resumeSkills.contains s))) ∧
      List.Sorted strLexLe (sortLex (resumeSkills.filter (jobSkills.contains ·))) ∧
      List.Sorted strLexLe (sortLex (jobSkills.filter (fun s => !resumeSkills.contains s))) := by
    intro resumeSkills jobSkills
    refine ⟨fun t => mem_sortLex_filter_contains,
      fun t => mem_sortLex_filter_not_contains, ?_, ?_,
      sortLex_sorted _, sortLex_sorted _⟩
    · intro t ⟨h1, h2⟩
      have hm := mem_sortLex_filter_contains.mp h1
      have hn := mem_sortLex_filter_not_contains.mp h2
      exact hn.2 hm.1
    · intro t
      constructor
      · intro hj
        by_cases hr : t ∈ resumeSkills
        · exact Or.inl (mem_sortLex_filter_contains.mpr ⟨hr, hj⟩)
        · exact Or.inr (mem_sortLex_filter_not_contains.mpr ⟨hj, hr⟩)
      · intro h
        rcases h with h | h
        · exact (mem_sortLex_filter_contains.mp h).2
        · exact (mem_sortLex_filter_not_contains.mp h).1
  constructor
  · intro dict sim resumeText jobText
    exact main (extractSkills dict (cleanText resumeText).1)
      (extractSkills dict (cleanText jobText).1)
  · intro dict simB predict bm25raw resumeText jobText
    exact main (extractSkills dict (cleanText resumeText).1)
      (extractSkills dict (cleanText jobText).1)

/-! C3: the keyword score matches the spec's formula only after rounding to
one decimal, which the claim omits. -/

theorem guard_ite_eq {P : Prop} [Decidable P] (u : ℕ) (q : ℚ) (h : ¬P → q = 0) :
    (if P then (if u ≠ 0 then q else 0) else 0) = (if u = 0 then 0 else q) := by
  by_cases hp : P
  · rw [if_pos hp]
    by_cases hu : u = 0
    · simp [hu]
    · simp [hu]
  · rw [if_neg hp, h hp]
    simp

theorem weight_ite (l : List String) (w : ℚ) :
    (if l ≠ [] then w else 0) = (if l.length = 0 then 0 else w) := by
  by_cases h : l = [] <;> simp [h]

theorem flip_pos_ite (W q : ℚ) (h : 0 ≤ W) :
    (if 0 < W then q else 0) = (if W = 0 then 0 else q) := by
  by_cases hw : W = 0
  · simp [hw]
  · have : 0 < W := lt_of_le_of_ne h (Ne.symm hw)
    simp [hw, this]

set_option maxHeartbeats 1000000 in
/-- C3, counterexample.  With the three-skill dictionary python/java/go,
resume `"python"`, job `"python java go"` and must-have set of all three
skills, the partition formula plus Jaccard adjustment evaluates to 130/3 =
43.33…, but `keyword_score` returns 43.3: the claimed formula holds only
after rounding to one decimal, which the claim omits. -/
theorem keyword_score_not_unrounded :
    keywordScore [("python", []), ("java", []), ("go", [])] "python" "python java go"
        ["python", "java", "go"] [] = 433/10 ∧
    specKeywordScore [("python", []), ("java", []), ("go", [])] "python" "python java go"
        ["python", "java", "go"] [] = 130/3 ∧
    (433/10 : ℚ) ≠ 130/3 := by
  have h1 : extractSkills [("python", []), ("java", []), ("go", [])] "python" =
      ["python"] := by decide
  have h2 : extractSkills [("python", []), ("java", []), ("go", [])] "python java go" =
      ["python", "java", "go"] := by decide
  have hjt1 : jaccardTokens ("python" : String).data = [['p','y','t','h','o','n']] := by
    simp +decide [jaccardTokens, findTokens, findTokensAux, lowerStr, lowerChar, dedupTokens,
      stopwords]
  have hjt2 : jaccardTokens ("python java go" : String).data =
      [['p','y','t','h','o','n'], ['j','a','v','a']] := by
    simp +decide [jaccardTokens, findTokens, findTokensAux, lowerStr, lowerChar, dedupTokens,
      stopwords]
  refine ⟨?_, ?_, by norm_num⟩
  · unfold keywordScore
    simp only [h1, h2, hjt1, hjt2]
    norm_num [scoreComponent, interLen, List.filter, clamp0100]
    simp +decide
    norm_num [max_def, min_def]
    unfold round1 pyRoundInt
    have hfl : ⌊(10 * (130/3 : ℚ))⌋ = 433 := by
      rw [Int.floor_eq_iff]
      constructor
      · norm_num
      · norm_num
    rw [hfl]
    norm_num
  · unfold specKeywordScore
    simp only [h1, h2, hjt1, hjt2]
    norm_num [interLen, List.filter, clamp0100]
    simp +decide
    norm_num [max_def, min_def]

/-- C3, amended.  `keyword_score` computes exactly the claimed weighted
partition formula with the clamped Jaccard adjustment and final clamp to
[0, 100] — and then rounds the result to one decimal. -/
theorem keyword_score_eq_round1_spec (dict : List (String × List String))
    (r j : String) (mh pf : List String) :
    keywordScore dict r j mh pf = round1 (specKeywordScore dict r j mh pf) := by
  unfold keywordScore specKeywordScore
  dsimp only []
  simp only [List.map_cons, List.map_nil, List.sum_cons, List.sum_nil, add_zero,
    scoreComponent, weight_ite, add_assoc, mul_div_assoc]
  have hW : (0:ℚ) ≤ (if mh.length = 0 then (0:ℚ) else 2) +
      ((if pf.length = 0 then (0:ℚ) else 1) +
        if (List.filter (fun s => !mh.contains s && !pf.contains s)
            (extractSkills dict j)).length = 0 then (0:ℚ) else 1/2) := by
    apply add_nonneg
    · split <;> norm_num
    · apply add_nonneg
      · split <;> norm_num
      · split <;> norm_num
  rw [flip_pos_ite _ _ hW]
  have hq : ¬(jaccardTokens j.data ≠ []) →
      (↑(List.filter (fun x => (jaccardTokens j.data).contains x)
          (jaccardTokens r.data)).length : ℚ) /
        ↑((jaccardTokens r.data).length +
          (List.filter (fun t => !(jaccardTokens r.data).contains t)
            (jaccardTokens j.data)).length) = 0 := by
    intro hn
    have hb : jaccardTokens j.data = [] := not_not.mp hn
    rw [hb]
    simp [List.contains]
  rw [guard_ite_eq _ _ hq]

end ResuMate
